import Mathlib

/-!
Verification development for the `fs_recon` reconciliation pipeline.

Shallow embedding of the Python sources:
  * `app/services/mapping_service.py`   (note mapping, `_norm`)
  * `app/services/reconcile_service.py` (reconciliation engine, `_calc_match`)
  * `app/services/dsd_service.py`       (regex boundary fallback)
  * `app/services/en_doc_service.py`    (section-count fallback threshold)
  * `app/utils/llm_client.py`           (robust JSON response recovery)

Modelling conventions:
  * Python floats are modelled exactly: parsed literals as a sign, a digit
    value and a decimal scale; reconciliation arithmetic over `ℚ`.  An
    IEEE-754 value whose rounding behaviour differs from exact decimal
    arithmetic is outside the model's precision.
  * External judge (LLM) calls are modelled as oracle functions supplied as
    parameters; theorems quantify over all possible oracle replies.
  * Fallible Python code is modelled in `Except PyError`; an uncaught
    exception is an `Except.error`.
  * Judge JSON replies are modelled as already-typed records; a structurally
    malformed element (a non-dict in a reply list, whose attribute access
    raises) is modelled by the `junk` constructor.
-/

deriving instance DecidableEq for Except

namespace FsRecon

/-! ## Python runtime model: whitespace, strings, float parsing -/

/-- Python exception classes relevant to the embedded code. -/
inductive PyError where
  | valueError
  | typeError
  | overflowError
deriving DecidableEq, Repr

/-- ASCII whitespace as recognised by Python's `str.strip()` (unicode
whitespace beyond ASCII is outside the model). -/
def isPySpace (c : Char) : Bool :=
  c = ' ' || c = '\t' || c = '\n' || c = '\r' || c = '\x0b' || c = '\x0c'

/-- Python `str.strip()` (both ends). -/
def pyStrip (s : String) : String :=
  String.mk (((s.data.dropWhile isPySpace).reverse.dropWhile isPySpace).reverse)

/-- The value of a Python `float`.  A finite value is kept exact as
`±digits · 10^scale`. -/
inductive PyFloat where
  | fin (neg : Bool) (digits : ℕ) (scale : ℤ)
  | inf (neg : Bool)
  | nan
deriving DecidableEq, Repr

/-- Continuation of a digit run, after at least one digit has been read.
Python numeric-literal underscores must be surrounded by digits on both
sides.  Returns further digits (underscores removed) and the unread rest. -/
def digitsUCont : List Char → List Char × List Char
  | '_' :: d :: rest =>
    if d.isDigit then
      let p := digitsUCont rest
      (d :: p.1, p.2)
    else ([], '_' :: d :: rest)
  | d :: rest =>
    if d.isDigit then
      let p := digitsUCont rest
      (d :: p.1, p.2)
    else ([], d :: rest)
  | [] => ([], [])

/-- A digit run (with interior underscores) as accepted inside a Python
float literal.  Empty first component means "no digits here". -/
def digitsU (l : List Char) : List Char × List Char :=
  match l with
  | d :: rest =>
    if d.isDigit then
      let p := digitsUCont rest
      (d :: p.1, p.2)
    else ([], l)
  | [] => ([], [])

/-- Numeric value of a list of ASCII digits. -/
def natOfDigits (l : List Char) : ℕ :=
  l.foldl (fun acc c => 10 * acc + (c.toNat - '0'.toNat)) 0

/-- The numeric (non-keyword) body of a Python float literal, sign removed:
`digits [. digits] [e [sign] digits]` with at least one mantissa digit.
Returns the digit value and decimal scale, or `none` where CPython's
parser rejects the string. -/
def parseFloatBody (l : List Char) : Option (ℕ × ℤ) :=
  let p1 := digitsU l
  let mant : Option (ℕ × ℤ × List Char) :=
    match p1.2 with
    | '.' :: r =>
      let p2 := digitsU r
      if p1.1.isEmpty && p2.1.isEmpty then none
      else some (natOfDigits (p1.1 ++ p2.1), -(p2.1.length : ℤ), p2.2)
    | _ => if p1.1.isEmpty then none else some (natOfDigits p1.1, 0, p1.2)
  match mant with
  | none => none
  | some (n, sc, r) =>
    match r with
    | [] => some (n, sc)
    | e :: r2 =>
      if e = 'e' || e = 'E' then
        let sp : ℤ × List Char :=
          match r2 with
          | '+' :: t => (1, t)
          | '-' :: t => (-1, t)
          | t => (1, t)
        let p3 := digitsU sp.2
        if p3.1.isEmpty || !p3.2.isEmpty then none
        else some (n, sc + sp.1 * (natOfDigits p3.1 : ℤ))
      else none

/-- Round-to-nearest overflow threshold of IEEE-754 binary64: exact values
of magnitude at least `2^1024 - 2^970` round to infinity. -/
def overflowThreshold : ℕ := 2 ^ 1024 - 2 ^ 970

/-- Does `digits · 10^scale` overflow an IEEE-754 binary64? -/
def floatOverflows (digits : ℕ) (scale : ℤ) : Bool :=
  if 0 ≤ scale then overflowThreshold ≤ digits * 10 ^ scale.toNat
  else overflowThreshold * 10 ^ (-scale).toNat ≤ digits

/-- Python `float(s)`: `none` models a raised `ValueError`. -/
def pyFloatOfString (s : String) : Option PyFloat :=
  let l0 := (pyStrip s).data
  let sl : Bool × List Char :=
    match l0 with
    | '+' :: r => (false, r)
    | '-' :: r => (true, r)
    | r => (false, r)
  let lower := sl.2.map Char.toLower
  if lower = "inf".data || lower = "infinity".data then some (.inf sl.1)
  else if lower = "nan".data then some .nan
  else
    match parseFloatBody sl.2 with
    | none => none
    | some p =>
      if floatOverflows p.1 p.2 then some (.inf sl.1)
      else some (.fin sl.1 p.1 p.2)

/-- Is the finite float `±digits · 10^scale` an integer (`f == int(f)`)? -/
def pyFinIntegral (digits : ℕ) (scale : ℤ) : Bool :=
  0 ≤ scale || decide (10 ^ (-scale).toNat ∣ digits)

/-- `int(f)` for an integral finite float. -/
def pyFinInt (neg : Bool) (digits : ℕ) (scale : ℤ) : ℤ :=
  (if neg then -1 else 1) *
    (if 0 ≤ scale then (digits * 10 ^ scale.toNat : ℕ)
     else (digits / 10 ^ (-scale).toNat : ℕ))

/-! ## `mapping_service._norm` — note-number normalisation

```python
def _norm(s: str) -> str:
    s = s.strip()
    try:
        f = float(s)
        if f == int(f):
            return str(int(f))
    except (ValueError, TypeError):
        pass
    return s
```
`int(f)` raises `OverflowError` for an infinite `f`, which the
`except (ValueError, TypeError)` clause does not catch; `int(nan)` raises
`ValueError`, which it does catch. -/
def _norm (s : String) : Except PyError String :=
  let t := pyStrip s
  match pyFloatOfString t with
  | none => .ok t
  | some .nan => .ok t
  | some (.inf _) => .error .overflowError
  | some (.fin neg n sc) =>
    if pyFinIntegral n sc then .ok (toString (pyFinInt neg n sc)) else .ok t

/-- `_norm` as a partial-value view: `none` models a raised exception. -/
def normOk (s : String) : Option String :=
  match _norm s with
  | .ok t => some t
  | .error _ => none

/-! ## Data model (`app/models`)

String-keyed dicts are modelled as association lists built in insertion
order (Python 3.7+ dict semantics: updating an existing key keeps its
position, a new key is appended). -/

/-- `app/models/dsd_model.DSDAmount`. -/
structure DSDAmount where
  attributes : List (String × String)
  value : Option ℚ
  raw_text : String
deriving DecidableEq, Repr

/-- `app/models/dsd_model.DSDItem` (`raw_row` is an opaque debug dict,
dropped from the model). -/
structure DSDItem where
  item_id : ℤ
  label : String
  is_header_only : Bool := false
  amounts : List DSDAmount
  unit : String := "원"
deriving DecidableEq, Repr

/-- `app/models/dsd_model.DSDNote`. -/
structure DSDNote where
  note_number : String
  note_title : String
  source_filename : String := ""
  unit : String := "원"
  raw_paragraphs : List String := []
  items : List DSDItem
deriving DecidableEq, Repr

/-- `app/models/en_doc_model.DocFormat`. -/
inductive DocFormat where
  | word
  | pdf
deriving DecidableEq, Repr

/-- `app/models/en_doc_model.EnNote` (`page_range` is debug-only, dropped). -/
structure EnNote where
  note_number : String
  note_title : String
  raw_text : String
  source_format : DocFormat
deriving DecidableEq, Repr

/-- `app/models/en_doc_model.EnDocument`. -/
structure EnDocument where
  filename : String
  format : DocFormat
  notes : List EnNote
  full_raw_text : String
deriving DecidableEq, Repr

/-- `app/services/mapping_service.NoteMapping`. -/
structure NoteMapping where
  kr_note : DSDNote
  en_note : Option EnNote
  confidence : ℚ
  method : String
deriving DecidableEq, Repr

/-- `app/models/reconcile_model.AmountMatch`. -/
structure AmountMatch where
  amount_id : String
  attributes_kr : List (String × String)
  attributes_en : List (String × String)
  value_kr : Option ℚ
  value_en : Option ℚ
  is_match : Option Bool
  variance : Option ℚ
  confidence : ℚ
  found : Bool
  llm_note : Option String := none
deriving DecidableEq, Repr

/-- `app/models/reconcile_model.ReconcileItem`. -/
structure ReconcileItem where
  item_id : ℤ
  label_kr : String
  label_en : Option String
  is_header_only : Bool
  amount_matches : List AmountMatch
deriving DecidableEq, Repr

/-- `app/models/reconcile_model.ReconcileResult`. -/
structure ReconcileResult where
  note_number_kr : String
  note_number_en : Option String
  note_title_kr : String
  note_title_en : Option String
  note_mapping_confidence : ℚ
  items : List ReconcileItem
deriving DecidableEq, Repr

/-- Computed field `ReconcileResult.total_amounts`: number of amount matches
over the non-header items. -/
def ReconcileResult.total_amounts (r : ReconcileResult) : ℕ :=
  ((r.items.filter (fun i => !i.is_header_only)).map
    (fun i => i.amount_matches.length)).sum

/-- Computed field `ReconcileResult.matched_count`: number of matches with
`is_match is True`, over all items. -/
def ReconcileResult.matched_count (r : ReconcileResult) : ℕ :=
  (r.items.map
    (fun i => (i.amount_matches.filter (fun m => m.is_match = some true)).length)).sum

/-! ## Reconciliation engine (`app/services/reconcile_service.py`) -/

/-- `MATCH_TOLERANCE_ABS = 1.0`. -/
def MATCH_TOLERANCE_ABS : ℚ := 1

/-- `MATCH_TOLERANCE_RATIO = 0.0` (no relative tolerance). -/
def MATCH_TOLERANCE_RATIO : ℚ := 0

/-- `_calc_match(value_kr, value_en) -> (is_match, variance, normalized_value_en)`.
Division by zero cannot occur: the ratio is computed only under the guard
`value_en != 0 and abs(value_kr) > 0` (in `ℚ`, `d / 0 = 0` anyway). -/
def _calc_match (value_kr value_en : Option ℚ) :
    Option Bool × Option ℚ × Option ℚ :=
  match value_kr, value_en with
  | none, ve => (none, none, ve)
  | some _, none => (none, none, none)
  | some vk, some ve =>
    let tol := max MATCH_TOLERANCE_ABS (|vk| * MATCH_TOLERANCE_RATIO)
    if |vk - ve| ≤ tol then (some true, some (ve - vk), some ve)
    else
      let ves := ve * 1000
      if |vk - ves| ≤ tol then (some true, some (ves - vk), some ves)
      else if (ve ≠ 0 ∧ 0 < |vk|) ∧ (500 ≤ |vk / ve| ∧ |vk / ve| ≤ 2000) then
        (some false, some (ves - vk), some ves)
      else (some false, some (ve - vk), some ve)

/-- One element of the judge's reconciliation reply array, as a typed
record (dynamic dict fields become `Option`s with the `.get` defaults
applied at the use sites, exactly as in the Python). -/
structure LLMResp where
  amount_id : String := ""
  en_label_for_row : Option String := none
  en_attributes : Option (List (String × String)) := none
  value_en : Option ℚ := none
  confidence : Option ℚ := none
  found : Bool := false
  reasoning : Option String := none
deriving DecidableEq, Repr

/-- An element of a judge reply list: either a well-formed dict or a value
whose attribute access raises (`junk`). -/
inductive RespItem where
  | good (r : LLMResp)
  | junk
deriving DecidableEq, Repr

/-- The outcome of one judge call as seen by the reconcile service:
a parsed list, a parsed non-list JSON value, or a raised exception. -/
inductive JudgeReply where
  | ok (items : List RespItem)
  | notList
  | raised
deriving Repr

/-- Oracle for one note pair's judge calls: the single-call reply and the
per-chunk replies (indexed by the chunk's item start offset).  Quantifying
over oracles models every possible external behaviour. -/
structure JudgeOracle where
  single : List String → JudgeReply
  chunk : ℕ → List String → JudgeReply

/-- Attribute cleaning `{k: v for k, v in attrs.items() if not k.startswith("_")}`. -/
def cleanAttrs (attrs : List (String × String)) : List (String × String) :=
  attrs.filter (fun kv => !kv.1.startsWith "_")

/-- The synthetic cell key `f"{item_id}_{amt_idx}"`. -/
def amountIdOf (item_id : ℤ) (idx : ℕ) : String :=
  toString item_id ++ "_" ++ toString idx

/-- `_build_dsd_items_payload`: one payload entry per non-null amount cell of
each non-header item.  Only the `amount_id` keys matter to the embedded
control flow, so the payload is modelled by its key list (the full entry
additionally carries the label, cleaned attributes, value and raw text). -/
def _build_dsd_items_payload (items : List DSDItem) : List String :=
  (items.filter (fun i => !i.is_header_only)).flatMap fun item =>
    item.amounts.enum.filterMap fun p =>
      match p.2.value with
      | none => none
      | some _ => some (amountIdOf item.item_id p.1)

/-- Chunking `for start in range(0, len(items), CHUNK_ITEM_SIZE)` with
`CHUNK_ITEM_SIZE = 3`. -/
def chunksOf3 : ℕ → List DSDItem → List (ℕ × List DSDItem)
  | _, [] => []
  | start, a :: b :: c :: rest =>
    (start, [a, b, c]) :: chunksOf3 (start + 3) rest
  | start, l => [(start, l)]

/-- `_llm_chunked_call`: per-chunk judge calls; a non-list or raising chunk
is skipped, results are concatenated. -/
def _llm_chunked_call (oracle : JudgeOracle) (kr : DSDNote) : List RespItem :=
  (chunksOf3 0 kr.items).foldl
    (fun acc p =>
      match oracle.chunk p.1 (_build_dsd_items_payload p.2) with
      | .ok items => acc ++ items
      | _ => acc)
    []

/-- `_call_llm_reconcile`: one single call over the full payload; a non-list
reply (`ValueError`) or a raised call falls back to the chunked path. -/
def _call_llm_reconcile (oracle : JudgeOracle) (kr : DSDNote) : List RespItem :=
  match oracle.single (_build_dsd_items_payload kr.items) with
  | .ok items => items
  | _ => _llm_chunked_call oracle kr

/-- The `response_map` lookup: dict comprehension keyed by truthy
`amount_id` (last entry wins). -/
def responseLookup (rs : List LLMResp) (k : String) : Option LLMResp :=
  rs.foldl
    (fun acc r => if r.amount_id ≠ "" ∧ r.amount_id = k then some r else acc)
    none

/-- `_build_amount_match(amount_id, dsd_amt, llm_resp)`. -/
def _build_amount_match (aid : String) (amt : DSDAmount)
    (resp : Option LLMResp) : AmountMatch :=
  let cleanKr := cleanAttrs amt.attributes
  match resp with
  | none =>
    { amount_id := aid, attributes_kr := cleanKr, attributes_en := []
      value_kr := amt.value, value_en := none, is_match := none
      variance := none, confidence := 0, found := false, llm_note := none }
  | some r =>
    if !r.found then
      { amount_id := aid, attributes_kr := cleanKr, attributes_en := []
        value_kr := amt.value, value_en := none, is_match := none
        variance := none, confidence := r.confidence.getD 0, found := false
        llm_note := r.reasoning }
    else
      let c := _calc_match amt.value r.value_en
      let rawNote := r.reasoning.getD ""
      { amount_id := aid, attributes_kr := cleanKr
        attributes_en := r.en_attributes.getD []
        value_kr := amt.value, value_en := c.2.2, is_match := c.1
        variance := c.2.1, confidence := r.confidence.getD (1 / 2)
        found := true
        llm_note :=
          if c.1 = some true then none
          else if rawNote = "" then none else some rawNote }

/-- `_make_header_only_item(item)`. -/
def _make_header_only_item (item : DSDItem) : ReconcileItem :=
  { item_id := item.item_id, label_kr := item.label, label_en := none
    is_header_only := true, amount_matches := [] }

/-- The representative English label of an item: first `found` response
with a truthy `en_label_for_row`. -/
def findLabelEn (rs : List LLMResp) (item : DSDItem) : Option String :=
  (List.range item.amounts.length).findSome? fun idx =>
    match responseLookup rs (amountIdOf item.item_id idx) with
    | some r =>
      if r.found ∧ r.en_label_for_row.getD "" ≠ "" then r.en_label_for_row
      else none
    | none => none

/-- The non-header branch of `_build_reconcile_items` for one item. -/
def buildOneReconcileItem (rs : List LLMResp) (item : DSDItem) : ReconcileItem :=
  let ms := item.amounts.enum.filterMap fun p =>
    match p.2.value with
    | none => none
    | some _ =>
      let aid := amountIdOf item.item_id p.1
      some (_build_amount_match aid p.2 (responseLookup rs aid))
  { item_id := item.item_id, label_kr := item.label
    label_en := findLabelEn rs item, is_header_only := false
    amount_matches := ms }

/-- `_build_reconcile_items(dsd_items, llm_responses)`.  Building the
`response_map` evaluates `r.get("amount_id")` on every reply element, so a
junk element raises before any item is built. -/
def _build_reconcile_items (dsd_items : List DSDItem) (resps : List RespItem) :
    Except PyError (List ReconcileItem) :=
  if resps.any (fun r => match r with | .junk => true | .good _ => false) then
    .error .typeError
  else
    let rs := resps.filterMap fun r =>
      match r with
      | .good r => some r
      | .junk => none
    .ok (dsd_items.map fun item =>
      if item.is_header_only then _make_header_only_item item
      else buildOneReconcileItem rs item)

/-- `_make_not_found_item(item)`: every amount cell (the null-valued ones
included) becomes a `found=False` match. -/
def _make_not_found_item (item : DSDItem) : ReconcileItem :=
  { item_id := item.item_id, label_kr := item.label, label_en := none
    is_header_only := item.is_header_only
    amount_matches := item.amounts.enum.map fun p =>
      { amount_id := amountIdOf item.item_id p.1
        attributes_kr := cleanAttrs p.2.attributes, attributes_en := []
        value_kr := p.2.value, value_en := none, is_match := none
        variance := none, confidence := 0, found := false
        llm_note := some "영문 Note 미존재" } }

/-- `_make_failed_result(mapping)`. -/
def _make_failed_result (mapping : NoteMapping) : ReconcileResult :=
  { note_number_kr := mapping.kr_note.note_number
    note_number_en := mapping.en_note.map (fun e => e.note_number)
    note_title_kr := mapping.kr_note.note_title
    note_title_en := mapping.en_note.map (fun e => e.note_title)
    note_mapping_confidence := mapping.confidence
    items := mapping.kr_note.items.map _make_not_found_item }

/-- `_reconcile_one(mapping, llm_client)`; an `Except.error` is an exception
escaping the pair's task. -/
def _reconcile_one (oracle : JudgeOracle) (mapping : NoteMapping) :
    Except PyError ReconcileResult :=
  match mapping.en_note with
  | none =>
    .ok { note_number_kr := mapping.kr_note.note_number, note_number_en := none
          note_title_kr := mapping.kr_note.note_title, note_title_en := none
          note_mapping_confidence := mapping.confidence
          items := mapping.kr_note.items.map _make_not_found_item }
  | some en =>
    if mapping.kr_note.items.all (fun i => i.is_header_only) then
      .ok { note_number_kr := mapping.kr_note.note_number
            note_number_en := some en.note_number
            note_title_kr := mapping.kr_note.note_title
            note_title_en := some en.note_title
            note_mapping_confidence := mapping.confidence
            items := mapping.kr_note.items.map _make_header_only_item }
    else
      match _build_reconcile_items mapping.kr_note.items (_call_llm_reconcile oracle mapping.kr_note) with
      | .ok items =>
        .ok { note_number_kr := mapping.kr_note.note_number
              note_number_en := some en.note_number
              note_title_kr := mapping.kr_note.note_title
              note_title_en := some en.note_title
              note_mapping_confidence := mapping.confidence
              items := items }
      | .error e => .error e

/-- `reconcile_all(mappings, ...)`: `asyncio.gather` preserves input order,
and a pair whose task raised is replaced by `_make_failed_result`. -/
def reconcile_all (oracles : ℕ → JudgeOracle) (mappings : List NoteMapping) :
    List ReconcileResult :=
  mappings.enum.map fun p =>
    match _reconcile_one (oracles p.1) p.2 with
    | .ok r => r
    | .error _ => _make_failed_result p.2

/-! ## Note mapper (`app/services/mapping_service.py`)

Python dicts are modelled as association lists in insertion order with
unique keys (`dictInsert` updates in place, appends fresh keys).  The
iteration order of the `unmatched_en_nums` *set* is unspecified in
CPython; the model fixes it to key-insertion order (the theorems quantify
over all judge oracles, so this choice is observationally harmless). -/

/-- Python dict insertion (3.7+ ordering semantics). -/
def dictInsert {α : Type} (l : List (String × α)) (k : String) (v : α) :
    List (String × α) :=
  if l.any (fun p => p.1 = k) then
    l.map (fun p => if p.1 = k then (k, v) else p)
  else l ++ [(k, v)]

/-- Python dict lookup. -/
def dictLookup {α : Type} (l : List (String × α)) (k : String) : Option α :=
  (l.find? (fun p => p.1 = k)).map (fun p => p.2)

/-- `{_norm(n.note_number): n for n in notes}` — may raise from `_norm`. -/
def buildEnDict (notes : List EnNote) :
    Except PyError (List (String × EnNote)) :=
  notes.foldlM
    (fun d n => do
      let k ← _norm n.note_number
      pure (dictInsert d k n))
    []

/-- One entry of the semantic mapping judge's `mappings` array, typed. -/
structure MapJudgeEntry where
  kr_num : String := ""
  en_num : Option String := none
  confidence : Option ℚ := none
deriving DecidableEq, Repr

/-- Stage 1 of `map_notes`: deterministic number matching over the
pre-normalised domestic notes.  Returns the number-matched mappings (in
input order) and the unmatched `(note, norm)` pairs (in input order). -/
def stage1 (enDict : List (String × EnNote)) :
    List (DSDNote × String) → List NoteMapping × List (DSDNote × String)
  | [] => ([], [])
  | (kr, k) :: rest =>
    let p := stage1 enDict rest
    match dictLookup enDict k with
    | some en => (⟨kr, some en, 1, "number"⟩ :: p.1, p.2)
    | none => (p.1, (kr, k) :: p.2)

/-- The foreign notes left unmatched after stage 1 (`unmatched_en_nums`
resolved through `en_by_num`). -/
def unmatchedEnNotes (enDict : List (String × EnNote)) (krNorms : List String) :
    List EnNote :=
  ((enDict.map (fun p => p.1)).filter (fun k => !krNorms.contains k)).filterMap
    (dictLookup enDict)

/-- `next((k for k in unmatched_kr if _norm(k.note_number) == kr_num), None)`:
lazily normalises candidates and may raise. -/
def findKrByNorm : List DSDNote → String → Except PyError (Option DSDNote)
  | [], _ => .ok none
  | kr :: rest, k => do
    let n ← _norm kr.note_number
    if n = k then pure (some kr) else findKrByNorm rest k

/-- `str(item.get("en_num", "")) if item.get("en_num") else None`: the
truthiness test on the judge entry's foreign number. -/
def truthyEnNum (e : MapJudgeEntry) : Option String :=
  match e.en_num with
  | some s => if s = "" then none else some s
  | none => none

/-- `_norm(en_num_raw) if en_num_raw else None` — may raise from `_norm`. -/
def normEnNum (e : MapJudgeEntry) : Except PyError (Option String) :=
  match truthyEnNum e with
  | some s => Except.map some (_norm s)
  | none => pure none

/-- The loop over the judge's `mappings` entries in `_llm_map`: returns the
accepted mappings and the `mapped_kr_norms` set (as a list). -/
def llmLoop (unkr : List DSDNote) (enDict2 : List (String × EnNote)) :
    List MapJudgeEntry → Except PyError (List NoteMapping × List String)
  | [] => .ok ([], [])
  | e :: rest => do
    let kr_num ← _norm e.kr_num
    match ← findKrByNorm unkr kr_num with
    | none => llmLoop unkr enDict2 rest
    | some kr =>
      let en_num ← normEnNum e
      let p ← llmLoop unkr enDict2 rest
      .ok (⟨kr, en_num.bind (dictLookup enDict2), e.confidence.getD (1 / 2), "llm"⟩ :: p.1,
           kr_num :: p.2)

/-- The trailing loop of `_llm_map`: domestic notes the judge left
unmapped become `unmatched` mappings. -/
def trailingUnmatched (mapped : List String) :
    List DSDNote → Except PyError (List NoteMapping)
  | [] => .ok []
  | kr :: rest => do
    let n ← _norm kr.note_number
    let p ← trailingUnmatched mapped rest
    if mapped.contains n then .ok p
    else .ok (⟨kr, none, 0, "unmatched"⟩ :: p)

/-- The mapping judge oracle: receives the unmapped domestic and foreign
`(number, title)` lists; a raised call or a reply without a truthy
`mappings` key is the empty list. -/
def MapJudge : Type :=
  List (String × String) → List (String × String) → List MapJudgeEntry

/-- `_llm_map(unmatched_kr, unmatched_en, llm_client)`. -/
def _llm_map (judge : MapJudge) (unmatched_kr : List DSDNote)
    (unmatched_en : List EnNote) : Except PyError (List NoteMapping) :=
  if unmatched_en.isEmpty then
    .ok (unmatched_kr.map fun kr => ⟨kr, none, 0, "unmatched"⟩)
  else do
    let raw := judge (unmatched_kr.map fun kr => (kr.note_number, kr.note_title))
                     (unmatched_en.map fun en => (en.note_number, en.note_title))
    let enDict2 ← unmatched_en.foldlM
      (fun d en => do
        let k ← _norm en.note_number
        pure (dictInsert d k en))
      []
    let lp ← llmLoop unmatched_kr enDict2 raw
    let tail ← trailingUnmatched lp.2 unmatched_kr
    .ok (lp.1 ++ tail)

/-- `_make_full_text_note(en_doc)`: the synthetic whole-document note. -/
def _make_full_text_note (en_doc : EnDocument) : EnNote :=
  { note_number := "ALL", note_title := "(전체 문서 — Note 분리 불가)"
    raw_text := en_doc.full_raw_text, source_format := en_doc.format }

/-- `kr_order.get(num, 9999)` where
`kr_order = {kr.note_number: i for i, kr in enumerate(kr_notes)}`
(last occurrence wins). -/
def krOrderKey (kr_notes : List DSDNote) (num : String) : ℕ :=
  match (kr_notes.enum.filter (fun p => p.2.note_number = num)).getLast? with
  | some p => p.1
  | none => 9999

/-- The sort order of the final `mappings.sort(key=...)`. -/
def mappingOrder (kr_notes : List DSDNote) (a b : NoteMapping) : Prop :=
  krOrderKey kr_notes a.kr_note.note_number ≤
    krOrderKey kr_notes b.kr_note.note_number

instance (kr_notes : List DSDNote) : DecidableRel (mappingOrder kr_notes) :=
  fun a b =>
    Nat.decLe (krOrderKey kr_notes a.kr_note.note_number)
      (krOrderKey kr_notes b.kr_note.note_number)

/-- `map_notes(kr_notes, en_doc, llm_client)`.  The final in-place `sort`
is a stable sort by `kr_order`; a stable sort on a total preorder has a
unique result, so `List.insertionSort` (stable) models Python's Timsort
faithfully. -/
def mapNotesAssemble (judge : MapJudge) (kr_notes : List DSDNote)
    (enDict : List (String × EnNote)) (krN : List (DSDNote × String)) :
    Except PyError (List NoteMapping) := do
  let llm ← (if (stage1 enDict krN).2.isEmpty then pure []
    else _llm_map judge ((stage1 enDict krN).2.map Prod.fst)
      (unmatchedEnNotes enDict (krN.map Prod.snd)))
  .ok (((stage1 enDict krN).1 ++ llm).insertionSort (mappingOrder kr_notes))

def map_notes (judge : MapJudge) (kr_notes : List DSDNote)
    (en_doc : EnDocument) : Except PyError (List NoteMapping) :=
  if en_doc.notes.isEmpty then
    .ok (kr_notes.map fun kr =>
      ⟨kr, some (_make_full_text_note en_doc), 1 / 2, "fallback"⟩)
  else do
    let enDict ← buildEnDict en_doc.notes
    let krN ← kr_notes.mapM fun kr => do
      let k ← _norm kr.note_number
      pure (kr, k)
    mapNotesAssemble judge kr_notes enDict krN

/-! ## Foreign-document section threshold (`app/services/en_doc_service.py`) -/

/-- `_sections_to_notes(sections, fmt)`. -/
def _sections_to_notes (sections : List (String × String × List String))
    (fmt : DocFormat) : List EnNote :=
  sections.map fun s =>
    { note_number := s.1, note_title := s.2.1
      raw_text := String.intercalate "\n" s.2.2, source_format := fmt }

/-- The `len(notes) < 3` fallback at the end of `_parse_pdf` /
`_parse_word`: fewer than 3 detected sections yield a document with zero
separated notes and only the full text. -/
def applySectionCountFallback (filename : String) (fmt : DocFormat)
    (notes : List EnNote) (full_text : String) : EnDocument :=
  if notes.length < 3 then
    { filename := filename, format := fmt, notes := [], full_raw_text := full_text }
  else
    { filename := filename, format := fmt, notes := notes, full_raw_text := full_text }

/-! ## Robust response parser (`app/utils/llm_client.py`)

`json.loads` is the Python standard library, external to this repository;
it is modelled as an oracle `loads : String → Option J` over an abstract
JSON-value type `J` (`none` models a raised `JSONDecodeError`). -/

/-- Scan state of the character loop in the truncated-array recovery. -/
structure ScanState (J : Type) where
  depth : ℤ
  in_string : Bool
  escape_next : Bool
  obj_start : Option ℕ
  objects : List J

/-- The initial scan state. -/
def initScan {J : Type} : ScanState J :=
  { depth := 0, in_string := false, escape_next := false
    obj_start := none, objects := [] }

/-- Python slice `text[s : i+1]`. -/
def slice (text : List Char) (s i : ℕ) : String :=
  String.mk ((text.drop s).take (i + 1 - s))

/-- One step of the recovery scan, transliterated from the `for i, ch in
enumerate(text)` loop body, parameterised by what happens to the
collected objects when a top-level `{...}` span closes. -/
def scanStepG {J : Type} (emit : List J → String → List J) (text : List Char)
    (st : ScanState J) (p : ℕ × Char) : ScanState J :=
  if st.escape_next then { st with escape_next := false }
  else if p.2 = '\\' ∧ st.in_string then { st with escape_next := true }
  else if p.2 = '"' then { st with in_string := !st.in_string }
  else if st.in_string then st
  else if p.2 = '\x7b' then
    { st with
      obj_start := if st.depth = 0 then some p.1 else st.obj_start
      depth := st.depth + 1 }
  else if p.2 = '\x7d' then
    if st.depth - 1 = 0 ∧ st.obj_start.isSome then
      { depth := st.depth - 1, in_string := st.in_string
        escape_next := st.escape_next, obj_start := none
        objects := emit st.objects (slice text (st.obj_start.getD 0) p.1) }
    else { st with depth := st.depth - 1 }
  else st

/-- The recovery scan step: `json.loads` the span, append on success,
swallow the `JSONDecodeError` on failure. -/
def scanStep {J : Type} (loads : String → Option J) (text : List Char)
    (st : ScanState J) (p : ℕ × Char) : ScanState J :=
  scanStepG
    (fun objs sub =>
      match loads sub with
      | some j => objs ++ [j]
      | none => objs)
    text st p

/-- Companion scan collecting every top-level span the loop closes,
whether or not it parses. -/
def spanStep (text : List Char) (st : ScanState String) (p : ℕ × Char) :
    ScanState String :=
  scanStepG (fun objs sub => objs ++ [sub]) text st p

/-- The complete top-level object spans of a response text: the substrings
the recovery loop attempts to parse, in order. -/
def topLevelSpans (text : String) : List String :=
  (text.data.enum.foldl (spanStep text.data) initScan).objects

/-- `_recover_partial_json_array(text)` (source name shortened).  The
`text.strip().startswith("[")` guard is expressed on the character
lists. -/
def _recover_json_array {J : Type} (loads : String → Option J)
    (text : String) : Option (List J) :=
  if !("[".data.isPrefixOf (pyStrip text).data) then none
  else
    let objs := (text.data.enum.foldl (scanStep loads text.data) initScan).objects
    if objs.isEmpty then none else some objs

/-- The result of `chat_json`: the direct parse or the recovered list. -/
inductive ChatJsonOut (J : Type) where
  | direct (j : J)
  | recovered (objs : List J)
deriving DecidableEq, Repr

/-- Python `"\n".split` on a character list (single-character separator,
so `str.split` keeps empty pieces, and the empty string yields one empty
piece). -/
def splitLines : List Char → List (List Char)
  | [] => [[]]
  | c :: rest =>
    if c = '\n' then [] :: splitLines rest
    else
      match splitLines rest with
      | l :: ls => (c :: l) :: ls
      | [] => [[c]]

/-- The fenced-block body: drop the opening fence line, drop a trailing
bare fence line, re-join and strip. -/
def stripFenceLines (cleaned : String) : String :=
  let lines := (splitLines cleaned.data).drop 1
  match lines.getLast? with
  | some last =>
    if pyStrip (String.mk last) = "```" then
      pyStrip (String.mk (List.intercalate ['\n'] lines.dropLast))
    else pyStrip (String.mk (List.intercalate ['\n'] lines))
  | none => pyStrip (String.mk (List.intercalate ['\n'] lines))

/-- The whitespace- and fenced-code-cleaning at the top of `chat_json`. -/
def cleanResponse (raw : String) : String :=
  if "```".data.isPrefixOf (pyStrip raw).data then stripFenceLines (pyStrip raw)
  else pyStrip raw

/-- `BaseLLMClient.chat_json` given the raw completion text:
direct parse, else truncated-array recovery, else `ValueError`. -/
def chat_json {J : Type} (loads : String → Option J) (raw : String) :
    Except PyError (ChatJsonOut J) :=
  match loads (cleanResponse raw) with
  | some j => .ok (.direct j)
  | none =>
    match _recover_json_array loads (cleanResponse raw) with
    | some objs => .ok (.recovered objs)
    | none => .error .valueError

/-! ## Deterministic boundary fallback (`dsd_service._regex_find_boundaries`)

The two patterns are modelled as explicit matchers with Python `re`
backtracking semantics resolved by hand.  The model's character classes
are ASCII plus the Hangul-syllable block (`\w`, `\s` and `\d` match more
exotic unicode in CPython); segment texts are assumed newline-free, which
`_extract_segments` guarantees by collapsing all whitespace runs. -/

/-- A text segment (`{"type": "p"|"table", "text": ...}`). -/
inductive Segment where
  | p (text : String)
  | table (text : String)
deriving DecidableEq, Repr

/-- The character class `[가-힣\w\s]` of the bare note-header pattern. -/
def inSimpleClass (c : Char) : Bool :=
  ('가' ≤ c ∧ c ≤ '힣') || c.isAlphanum || c = '_' || isPySpace c

/-- `PAT_EXPLICIT = ^\s*주\s*석\s*(\d+)\s*[.\s]*(.*)\s*$` on newline-free
text: once `주석` and a digit run are found the greedy `(.*)` always
completes, capturing everything after the `[.\s]*` run. -/
def matchExplicit (text : String) : Option (String × String) :=
  match text.data.dropWhile isPySpace with
  | c1 :: l1 =>
    if c1 = '주' then
      match l1.dropWhile isPySpace with
      | c2 :: l3 =>
        if c2 = '석' then
          let l4 := l3.dropWhile isPySpace
          let ds := l4.takeWhile Char.isDigit
          if ds.isEmpty then none
          else
            let l5 := (l4.drop ds.length).dropWhile (fun c => c = '.' || isPySpace c)
            some (String.mk ds, String.mk l5)
        else none
      | [] => none
    else none
  | [] => none

/-- The backtracking search for `[.\s]\s*([가-힣\w\s]{2,40})\s*$` after the
digit run of `PAT_SIMPLE`: the separator position (inside the maximal
space run) is tried right-to-left, then the group's leading-space count
right-to-left, then the group greedily. -/
def simpleGroupSearch (r0 : List Char) : Option (List Char) :=
  let w := (r0.takeWhile isPySpace).length
  ((List.range (w + 1)).reverse).findSome? fun s1 =>
    match r0.drop s1 with
    | c :: t =>
      if c = '.' || isPySpace c then
        let s2max := (t.takeWhile isPySpace).length
        ((List.range (s2max + 1)).reverse).findSome? fun s2 =>
          let u := t.drop s2
          let k := min (u.takeWhile inSimpleClass).length 40
          if 2 ≤ k ∧ (u.drop k).all isPySpace then some (u.take k) else none
      else none
    | [] => none

/-- `PAT_SIMPLE = ^\s*(\d+)\s*[.\s]\s*([가-힣\w\s]{2,40})\s*$` on
newline-free text.  The digit run cannot be shortened by backtracking
because no later pattern element matches a digit. -/
def matchSimple (text : String) : Option (String × String) :=
  let l := text.data.dropWhile isPySpace
  let ds := l.takeWhile Char.isDigit
  if ds.isEmpty then none
  else
    match simpleGroupSearch (l.drop ds.length) with
    | some a => some (String.mk ds, String.mk a)
    | none => none

/-- Does one alternative of `_AUDITOR_KEYWORDS` match at the head of `l`?
Two alternatives carry an interior `\s*`. -/
def auditorKeywordAt (l : List Char) : Bool :=
  ("감사대상".data.isPrefixOf l) || ("감사참여".data.isPrefixOf l) ||
  ("감사실시".data.isPrefixOf l) || ("감사의견".data.isPrefixOf l) ||
  ("핵심감사".data.isPrefixOf l) || ("감사범위".data.isPrefixOf l) ||
  ("감사기준".data.isPrefixOf l) || ("감사보고".data.isPrefixOf l) ||
  ("내부통제".data.isPrefixOf l) || ("계속기업".data.isPrefixOf l) ||
  ("경영진의".data.isPrefixOf l &&
    "책임".data.isPrefixOf ((l.drop "경영진의".data.length).dropWhile isPySpace)) ||
  ("감사인의".data.isPrefixOf l &&
    "책임".data.isPrefixOf ((l.drop "감사인의".data.length).dropWhile isPySpace))

/-- `_AUDITOR_KEYWORDS.search(title)`: does any suffix start a keyword? -/
def auditorKeywordSearch : List Char → Bool
  | [] => false
  | c :: t => auditorKeywordAt (c :: t) || auditorKeywordSearch t

/-- `app/services/dsd_service` boundary record
(`{"segment_index": i, "note_number": ..., "note_title": ...}`). -/
structure Boundary where
  segment_index : ℕ
  note_number : String
  note_title : String
deriving DecidableEq, Repr

/-- The accept-or-exclude step shared by both patterns: the stripped title
is tested against the auditor's-report vocabulary; a hit emits nothing. -/
def acceptTitle (i : ℕ) (g : String × String) : Option Boundary :=
  let title := pyStrip g.2
  if auditorKeywordSearch title.data then none
  else some ⟨i, pyStrip g.1, title⟩

/-- The per-segment body of the `_regex_find_boundaries` loop: the first
matching pattern wins; a vocabulary hit breaks out without emitting. -/
def boundaryOfSegment (i : ℕ) (text : String) : Option Boundary :=
  match matchExplicit text with
  | some g => acceptTitle i g
  | none =>
    match matchSimple text with
    | some g => acceptTitle i g
    | none => none

/-- `_regex_find_boundaries(segments)`: paragraph segments only, at most
one boundary per segment, in segment order. -/
def _regex_find_boundaries (segments : List Segment) : List Boundary :=
  segments.enum.filterMap fun p =>
    match p.2 with
    | .p text => boundaryOfSegment p.1 text
    | .table _ => none

/-! ## Concrete scenario inputs used by witnesses and counterexamples -/

/-- An oracle whose every reply is a non-list JSON value. -/
def silentOracle : JudgeOracle :=
  { single := fun _ => .notList, chunk := fun _ _ => .notList }

/-- One-row domestic note with a single null-valued cell. -/
def nullCellNote : DSDNote :=
  { note_number := "4", note_title := "감가상각", items :=
      [{ item_id := 0, label := "row", is_header_only := false
         amounts := [{ attributes := [], value := none, raw_text := "-" }] }] }

/-- One-row domestic note with a single 5-valued cell. -/
def fiveCellNote : DSDNote :=
  { note_number := "1", note_title := "현금", items :=
      [{ item_id := 0, label := "row", is_header_only := false
         amounts := [{ attributes := [], value := some 5, raw_text := "5" }] }] }

/-- A foreign note for the concrete scenarios. -/
def someEnNote : EnNote :=
  { note_number := "1", note_title := "Cash", raw_text := "text"
    source_format := .pdf }

/-- An oracle that reports the single cell `0_0` as found with a null
foreign value. -/
def foundNullOracle : JudgeOracle :=
  { single := fun _ =>
      .ok [.good { amount_id := "0_0", found := true, value_en := none
                   confidence := some 1 }]
    chunk := fun _ _ => .notList }

/-- A domestic note whose only item is header-only yet carries an amount
cell (the `Item` invariant `isHeaderOnly ⇒ amounts = []` violated
upstream). -/
def headerWithAmountNote : DSDNote :=
  { note_number := "7", note_title := "제목", items :=
      [{ item_id := 0, label := "h", is_header_only := true
         amounts := [{ attributes := [], value := some 1, raw_text := "1" }] }] }

/-! ## C10 — totality of `_norm` -/

/-- C10: the claim states `_norm` is total and never raises.  The code
belies it: `float("inf")` parses to an infinity and `int(f)` then raises
`OverflowError`, which the `except (ValueError, TypeError)` clause does
not catch.  This theorem evaluates the embedded `_norm` at the failing
input `"inf"`. -/
theorem norm_inf_overflow_error : _norm "inf" = .error .overflowError := by
  rfl

/-! ## C1 — match classification (`_calc_match`) -/

/-- C1: for non-null domestic `d` and judge-reported foreign `f`:
(1) `|d − f| ≤ 1` gives a match storing `f`; (2) else `|d − f·1000| ≤ 1`
gives a match storing `f·1000`; (3) else a ratio `|d / f|` in
`[500, 2000]` (endpoints included) gives a mismatch storing `f·1000` with
variance `f·1000 − d`; (4) otherwise a mismatch storing `f` with variance
`f − d`. -/
theorem calc_match_classification (d f : ℚ) :
    (|d - f| ≤ 1 →
      _calc_match (some d) (some f) = (some true, some (f - d), some f)) ∧
    (¬|d - f| ≤ 1 → |d - f * 1000| ≤ 1 →
      _calc_match (some d) (some f) =
        (some true, some (f * 1000 - d), some (f * 1000))) ∧
    (¬|d - f| ≤ 1 → ¬|d - f * 1000| ≤ 1 → 500 ≤ |d / f| → |d / f| ≤ 2000 →
      _calc_match (some d) (some f) =
        (some false, some (f * 1000 - d), some (f * 1000))) ∧
    (¬|d - f| ≤ 1 → ¬|d - f * 1000| ≤ 1 → ¬(500 ≤ |d / f| ∧ |d / f| ≤ 2000) →
      _calc_match (some d) (some f) = (some false, some (f - d), some f)) := by
  have htol : max MATCH_TOLERANCE_ABS (|d| * MATCH_TOLERANCE_RATIO) = 1 := by
    simp [MATCH_TOLERANCE_ABS, MATCH_TOLERANCE_RATIO]
  refine ⟨fun h1 => ?_, fun h1 h2 => ?_, fun h1 h2 h3 h4 => ?_,
    fun h1 h2 h34 => ?_⟩
  · simp only [_calc_match, htol, if_pos h1]
  · simp only [_calc_match, htol, if_neg h1, if_pos h2]
  · have hf : f ≠ 0 := by
      intro hf0
      rw [hf0, div_zero, abs_zero] at h3
      norm_num at h3
    have hd : 0 < |d| := by
      rcases abs_pos.mpr (show d ≠ 0 by
        intro hd0
        rw [hd0, zero_div, abs_zero] at h3
        norm_num at h3) with h
      exact h
    simp only [_calc_match, htol, if_neg h1, if_neg h2,
      if_pos (show (f ≠ 0 ∧ 0 < |d|) ∧ (500 ≤ |d / f| ∧ |d / f| ≤ 2000) from
        ⟨⟨hf, hd⟩, h3, h4⟩)]
  · have hcond : ¬((f ≠ 0 ∧ 0 < |d|) ∧ (500 ≤ |d / f| ∧ |d / f| ≤ 2000)) := by
      intro hc
      exact h34 hc.2
    simp only [_calc_match, htol, if_neg h1, if_neg h2, if_neg hcond]

/-- Witness for C1 at the spec's concrete scenarios: boundary tolerance
(`d = 1 000 000`, `f = 999 999.5`), thousand-scale match (`d = 1 000 000`,
`f = 1000`), ratio boundary 2000 (`d = 2 000 000`, `f = 1000`) and a
plain mismatch (`d = 10`, `f = 5`). -/
theorem calc_match_classification_witness :
    _calc_match (some 1000000) (some (1999999 / 2)) =
      (some true, some ((1999999 / 2 : ℚ) - 1000000), some (1999999 / 2)) ∧
    _calc_match (some 1000000) (some 1000) =
      (some true, some ((1000 : ℚ) * 1000 - 1000000), some ((1000 : ℚ) * 1000)) ∧
    _calc_match (some 2000000) (some 1000) =
      (some false, some ((1000 : ℚ) * 1000 - 2000000), some ((1000 : ℚ) * 1000)) ∧
    _calc_match (some 10) (some 5) =
      (some false, some ((5 : ℚ) - 10), some 5) := by
  refine ⟨?_, ?_, ?_, ?_⟩
  · exact (calc_match_classification 1000000 (1999999 / 2)).1
      (by rw [abs_sub_le_iff]; norm_num)
  · exact (calc_match_classification 1000000 1000).2.1
      (by rw [abs_sub_le_iff]; norm_num)
      (by rw [abs_sub_le_iff]; norm_num)
  · exact (calc_match_classification 2000000 1000).2.2.1
      (by rw [abs_sub_le_iff]; norm_num)
      (by rw [abs_sub_le_iff]; norm_num)
      (by rw [show (2000000 : ℚ) / 1000 = 2000 by norm_num]; norm_num)
      (by rw [show (2000000 : ℚ) / 1000 = 2000 by norm_num]; norm_num)
  · exact (calc_match_classification 10 5).2.2.2
      (by rw [abs_sub_le_iff]; norm_num)
      (by rw [abs_sub_le_iff]; norm_num)
      (by
        rw [show (10 : ℚ) / 5 = 2 by norm_num]
        intro hc
        norm_num at hc)

/-! ## C5 — zero-section fallback mapping -/

/-- C5: a foreign document built from fewer than 3 detected sections has
zero separated notes, and then every domestic note (of a non-empty list)
is mapped to the single synthetic whole-document note with method
`fallback` and confidence exactly `0.5`. -/
theorem fallback_mapping_confidence_half (judge : MapJudge)
    (sections : List (String × String × List String)) (filename full_text : String)
    (fmt : DocFormat) (kr_notes : List DSDNote)
    (hlt : sections.length < 3) (hne : kr_notes ≠ []) :
    (applySectionCountFallback filename fmt (_sections_to_notes sections fmt)
        full_text).notes = [] ∧
    map_notes judge kr_notes
        (applySectionCountFallback filename fmt (_sections_to_notes sections fmt)
          full_text) =
      .ok (kr_notes.map fun kr =>
        ⟨kr, some (_make_full_text_note
          (applySectionCountFallback filename fmt (_sections_to_notes sections fmt)
            full_text)), 1 / 2, "fallback"⟩) ∧
    (kr_notes.map fun kr =>
        (⟨kr, some (_make_full_text_note
          (applySectionCountFallback filename fmt (_sections_to_notes sections fmt)
            full_text)), 1 / 2, "fallback"⟩ : NoteMapping)) ≠ [] := by
  have hlen : (_sections_to_notes sections fmt).length = sections.length := by
    simp [_sections_to_notes]
  have hdoc : applySectionCountFallback filename fmt
      (_sections_to_notes sections fmt) full_text =
      { filename := filename, format := fmt, notes := []
        full_raw_text := full_text } := by
    unfold applySectionCountFallback
    rw [hlen, if_pos hlt]
  refine ⟨by rw [hdoc], ?_, ?_⟩
  · rw [hdoc]
    unfold map_notes
    simp
  · simp only [ne_eq, List.map_eq_nil_iff]
    exact hne

/-- Witness for C5: one detected section, two domestic notes. -/
theorem fallback_mapping_confidence_half_witness :
    map_notes (fun _ _ => []) [fiveCellNote, nullCellNote]
        (applySectionCountFallback "en.pdf" .pdf
          (_sections_to_notes [("1", "Cash", ["1. Cash", "body"])] .pdf) "full") =
      .ok ([fiveCellNote, nullCellNote].map fun kr =>
        ⟨kr, some (_make_full_text_note
          (applySectionCountFallback "en.pdf" .pdf
            (_sections_to_notes [("1", "Cash", ["1. Cash", "body"])] .pdf) "full")),
          1 / 2, "fallback"⟩) :=
  (fallback_mapping_confidence_half (fun _ _ => [])
    [("1", "Cash", ["1. Cash", "body"])] "en.pdf" "full" .pdf
    [fiveCellNote, nullCellNote] (by norm_num) (by simp)).2.1

/-! ## C9 — auditor's-report titles excluded by the regex fallback -/

/-- `acceptTitle` only emits boundaries carrying its own index. -/
theorem acceptTitle_index {i : ℕ} {g : String × String} {b : Boundary}
    (h : acceptTitle i g = some b) : b.segment_index = i := by
  unfold acceptTitle at h
  by_cases hk : auditorKeywordSearch (pyStrip g.2).data
  · simp [hk] at h
  · simp only [hk, if_false, Bool.false_eq_true] at h
    cases h
    rfl

/-- A boundary's index is the index of the segment it came from. -/
theorem boundaryOfSegment_index {i : ℕ} {text : String} {b : Boundary}
    (h : boundaryOfSegment i text = some b) : b.segment_index = i := by
  unfold boundaryOfSegment at h
  rcases hE : matchExplicit text with _ | g
  · rw [hE] at h
    rcases hS : matchSimple text with _ | g2
    · rw [hS] at h
      exact absurd h (by simp)
    · rw [hS] at h
      exact acceptTitle_index h
  · rw [hE] at h
    exact acceptTitle_index h

/-- Every emitted boundary comes from the paragraph segment at its index. -/
theorem mem_regex_boundaries {segments : List Segment} {b : Boundary}
    (hb : b ∈ _regex_find_boundaries segments) :
    ∃ text, segments[b.segment_index]? = some (.p text) ∧
      boundaryOfSegment b.segment_index text = some b := by
  unfold _regex_find_boundaries at hb
  rcases List.mem_filterMap.mp hb with ⟨p, hp, hf⟩
  have hget : segments[p.1]? = some p.2 := List.mem_enum_iff_getElem?.mp hp
  rcases hpt : p.2 with text | text
  · rw [hpt] at hf
    have hidx : b.segment_index = p.1 := boundaryOfSegment_index hf
    exact ⟨text, by rw [hidx, hget, hpt], by rw [hidx]; exact hf⟩
  · rw [hpt] at hf
    exact absurd hf (by simp)

/-- If the bare pattern matches, the text's first non-space character is a
digit, so the explicit `주석` pattern cannot match. -/
theorem explicit_none_of_simple {text : String} {g : String × String}
    (h : matchSimple text = some g) : matchExplicit text = none := by
  unfold matchSimple at h
  unfold matchExplicit
  rcases hd : text.data.dropWhile isPySpace with _ | ⟨c, rest⟩
  · rfl
  · rw [hd] at h
    simp only [List.takeWhile] at h
    by_cases hc : c.isDigit
    · have : c ≠ '주' := by
        intro hint
        rw [hint] at hc
        exact absurd hc (by decide)
      simp [this]
    · exfalso
      have hc' : c.isDigit = false := by
        simpa using hc
      rw [hc'] at h
      simp at h

/-- A segment whose first matching pattern captures an auditor's-report
title yields no boundary. -/
theorem boundaryOfSegment_none_of_keyword {i : ℕ} {text : String}
    (hkw : (∃ g, matchExplicit text = some g ∧
              auditorKeywordSearch (pyStrip g.2).data) ∨
           (∃ g, matchSimple text = some g ∧
              auditorKeywordSearch (pyStrip g.2).data)) :
    boundaryOfSegment i text = none := by
  rcases hkw with ⟨g, hg, hk⟩ | ⟨g, hg, hk⟩
  · simp [boundaryOfSegment, hg, acceptTitle, hk]
  · simp [boundaryOfSegment, explicit_none_of_simple hg, hg, acceptTitle, hk]

/-- C9: a paragraph segment matching the explicit "Note N. Title" pattern
or the bare "N. Title" pattern whose captured (stripped) title contains
auditor's-report vocabulary contributes no boundary entry under the
deterministic regex fallback. -/
theorem regex_fallback_excludes_auditor_titles (segments : List Segment)
    (i : ℕ) (text : String)
    (hseg : segments[i]? = some (.p text))
    (hkw : (∃ g, matchExplicit text = some g ∧
              auditorKeywordSearch (pyStrip g.2).data) ∨
           (∃ g, matchSimple text = some g ∧
              auditorKeywordSearch (pyStrip g.2).data)) :
    ∀ b ∈ _regex_find_boundaries segments, b.segment_index ≠ i := by
  intro b hb hbi
  obtain ⟨t, ht, hbs⟩ := mem_regex_boundaries hb
  rw [hbi, hseg] at ht
  have htt : t = text := by
    cases ht
    rfl
  rw [hbi, htt, boundaryOfSegment_none_of_keyword hkw] at hbs
  exact Option.noConfusion hbs

/-- Witness for C9: the segment text "5. 감사범위 내용" matches the bare
pattern with a title containing the keyword `감사범위`, so no boundary
with its index is emitted. -/
theorem regex_fallback_excludes_auditor_titles_witness :
    Boundary.mk 0 "5" "감사범위 내용" ∉
      _regex_find_boundaries [Segment.p "5. 감사범위 내용"] := by
  intro hb
  exact regex_fallback_excludes_auditor_titles
    [Segment.p "5. 감사범위 내용"] 0 "5. 감사범위 내용" (by rfl)
    (Or.inr ⟨("5", "감사범위 내용"), by decide, by decide⟩)
    (Boundary.mk 0 "5" "감사범위 내용") hb rfl

/-! ## Shared facts about the reconciliation engine's output paths -/

/-- Every match of a not-found item is unfound, null-judged and carries one
entry per amount cell. -/
theorem make_not_found_item_spec (item : DSDItem) :
    (_make_not_found_item item).amount_matches.length = item.amounts.length ∧
    ∀ m ∈ (_make_not_found_item item).amount_matches,
      m.found = false ∧ m.is_match = none ∧ m.value_en = none ∧
        m.is_match ≠ some true := by
  constructor
  · simp [_make_not_found_item]
  · intro m hm
    simp only [_make_not_found_item, List.mem_map] at hm
    obtain ⟨p, _, rfl⟩ := hm
    exact ⟨rfl, rfl, rfl, by simp⟩

/-- On two non-null inputs `_calc_match` judges all three components. -/
theorem calc_match_some_some (v w : ℚ) :
    ∃ b q u, _calc_match (some v) (some w) = (some b, some q, some u) := by
  simp only [_calc_match]
  split_ifs <;> exact ⟨_, _, _, rfl⟩

/-- `_build_amount_match` copies the domestic cell value verbatim. -/
theorem build_amount_match_value_kr (aid : String) (amt : DSDAmount)
    (resp : Option LLMResp) :
    (_build_amount_match aid amt resp).value_kr = amt.value := by
  rcases resp with _ | r
  · rfl
  · by_cases hf : r.found
    · simp [_build_amount_match, hf]
    · simp [_build_amount_match, hf]

/-- The amended null-match invariant at the level of one built match. -/
theorem build_amount_match_iff (aid : String) (amt : DSDAmount)
    (resp : Option LLMResp) (hv : amt.value ≠ none) :
    ((_build_amount_match aid amt resp).is_match = none ↔
      ((_build_amount_match aid amt resp).found = false ∨
        (_build_amount_match aid amt resp).value_en = none)) := by
  obtain ⟨v, hv⟩ := Option.ne_none_iff_exists'.mp hv
  rcases resp with _ | r
  · simp [_build_amount_match]
  · by_cases hf : r.found
    · rcases hw : r.value_en with _ | w
      · simp [_build_amount_match, hf, hw, hv, _calc_match]
      · obtain ⟨b, q, u, hc⟩ := calc_match_some_some v w
        simp [_build_amount_match, hf, hw, hv, hc]
    · simp [_build_amount_match, hf]

/-- Each match of the judged path comes from a non-null cell. -/
theorem mem_buildOne_matches {rs : List LLMResp} {item : DSDItem}
    {m : AmountMatch} (hm : m ∈ (buildOneReconcileItem rs item).amount_matches) :
    ∃ idx amt, (idx, amt) ∈ item.amounts.enum ∧ amt.value ≠ none ∧
      m = _build_amount_match (amountIdOf item.item_id idx) amt
        (responseLookup rs (amountIdOf item.item_id idx)) := by
  simp only [buildOneReconcileItem] at hm
  rcases List.mem_filterMap.mp hm with ⟨p, hp, hf⟩
  rcases hv : p.2.value with _ | v
  · rw [hv] at hf
    exact absurd hf (by simp)
  · rw [hv] at hf
    refine ⟨p.1, p.2, hp, by simp [hv], ?_⟩
    cases hf
    rfl

/-- Case analysis of a successful `_reconcile_one`, recording which of the
three output paths produced the result. -/
theorem reconcile_one_ok_items {oracle : JudgeOracle} {mapping : NoteMapping}
    {r : ReconcileResult} (h : _reconcile_one oracle mapping = .ok r) :
    (mapping.en_note = none ∧
      r.items = mapping.kr_note.items.map _make_not_found_item) ∨
    (mapping.en_note ≠ none ∧
      (r.items = mapping.kr_note.items.map _make_header_only_item ∨
       ∃ rs, r.items = mapping.kr_note.items.map fun item =>
         if item.is_header_only then _make_header_only_item item
         else buildOneReconcileItem rs item)) := by
  unfold _reconcile_one at h
  split at h
  · cases h
    rename_i heq
    exact Or.inl ⟨heq, rfl⟩
  · rename_i en heq
    refine Or.inr ⟨by rw [heq]; simp, ?_⟩
    split at h
    · cases h
      exact Or.inl rfl
    · split at h
      · rename_i items hb
        cases h
        unfold _build_reconcile_items at hb
        split at hb
        · exact absurd hb (by simp)
        · cases hb
          exact Or.inr ⟨_, rfl⟩
      · exact absurd h (by simp)

/-- A successful `_reconcile_one` copies the pair's identity fields. -/
theorem reconcile_one_ok_fields {oracle : JudgeOracle} {mapping : NoteMapping}
    {r : ReconcileResult} (h : _reconcile_one oracle mapping = .ok r) :
    r.note_number_kr = mapping.kr_note.note_number ∧
    r.note_mapping_confidence = mapping.confidence := by
  unfold _reconcile_one at h
  split at h
  · cases h
    exact ⟨rfl, rfl⟩
  · split at h
    · cases h
      exact ⟨rfl, rfl⟩
    · split at h
      · cases h
        exact ⟨rfl, rfl⟩
      · exact absurd h (by simp)

/-- Every result of `reconcile_all` arises from some input mapping. -/
theorem mem_reconcile_all {oracles : ℕ → JudgeOracle}
    {mappings : List NoteMapping} {r : ReconcileResult}
    (hr : r ∈ reconcile_all oracles mappings) :
    ∃ i mapping, mappings[i]? = some mapping ∧
      ((∃ x, _reconcile_one (oracles i) mapping = .ok x ∧ r = x) ∨
       ((∃ e, _reconcile_one (oracles i) mapping = .error e) ∧
         r = _make_failed_result mapping)) := by
  unfold reconcile_all at hr
  rcases List.mem_map.mp hr with ⟨p, hp, hf⟩
  refine ⟨p.1, p.2, List.mem_enum_iff_getElem?.mp hp, ?_⟩
  rcases ho : _reconcile_one (oracles p.1) p.2 with e | x
  · rw [ho] at hf
    exact Or.inr ⟨⟨e, rfl⟩, hf.symm⟩
  · rw [ho] at hf
    exact Or.inl ⟨x, rfl, hf.symm⟩

/-! ## C3 — `is_match` nullity (amended invariant) -/

/-- Counterexample to C3 as stated: a judge reply marking cell `0_0` found
with a null foreign value yields an `AmountMatch` with `found = true` and
`is_match = none`, so `is_match = none` does not imply `found = false`. -/
theorem amount_match_null_iff_counterexample :
    ((reconcile_all (fun _ => foundNullOracle)
        [⟨fiveCellNote, some someEnNote, 1, "number"⟩]).map
      fun r => r.items.map fun it => it.amount_matches.map
        fun m => (m.found, m.is_match)) = [[[(true, none)]]] := by
  decide

/-- C3 (amended): in every output path of the engine, a match's
`is_match` is null exactly when it is unfound **or** its stored foreign
value is null (the judge may report `found` with a null value). -/
theorem amount_match_null_iff_found_or_null_value (oracles : ℕ → JudgeOracle)
    (mappings : List NoteMapping) :
    ∀ r ∈ reconcile_all oracles mappings, ∀ it ∈ r.items,
      ∀ m ∈ it.amount_matches,
        (m.is_match = none ↔ (m.found = false ∨ m.value_en = none)) := by
  intro r hr it hit m hm
  obtain ⟨i, mapping, _, hcase⟩ := mem_reconcile_all hr
  have hnf : ∀ item : DSDItem, it = _make_not_found_item item →
      (m.is_match = none ↔ (m.found = false ∨ m.value_en = none)) := by
    intro item hit2
    obtain ⟨_, hms⟩ := make_not_found_item_spec item
    rw [hit2] at hm
    obtain ⟨h1, h2, _, _⟩ := hms m hm
    rw [h1, h2]
    simp
  rcases hcase with ⟨x, hx, rfl⟩ | ⟨_, rfl⟩
  · rcases reconcile_one_ok_items hx with ⟨_, hi1⟩ | ⟨_, hi2 | ⟨rs, hi3⟩⟩
    · rw [hi1] at hit
      obtain ⟨item, _, rfl⟩ := List.mem_map.mp hit
      exact hnf item rfl
    · rw [hi2] at hit
      obtain ⟨item, _, rfl⟩ := List.mem_map.mp hit
      exact absurd hm (by simp [_make_header_only_item])
    · rw [hi3] at hit
      obtain ⟨item, _, rfl⟩ := List.mem_map.mp hit
      by_cases hh : item.is_header_only
      · rw [if_pos hh] at hm
        exact absurd hm (by simp [_make_header_only_item])
      · rw [if_neg hh] at hm
        obtain ⟨idx, amt, _, hv, rfl⟩ := mem_buildOne_matches hm
        exact build_amount_match_iff _ amt _ hv
  · rw [_make_failed_result] at hit
    obtain ⟨item, _, rfl⟩ := List.mem_map.mp hit
    exact hnf item rfl

/-- Witness for C3's amended invariant at a concrete not-found match. -/
theorem amount_match_null_iff_witness :
    ((⟨"0_0", [], [], some 5, none, none, none, 0, false,
        some "영문 Note 미존재"⟩ : AmountMatch).is_match = none ↔
      ((⟨"0_0", [], [], some 5, none, none, none, 0, false,
          some "영문 Note 미존재"⟩ : AmountMatch).found = false ∨
        (⟨"0_0", [], [], some 5, none, none, none, 0, false,
          some "영문 Note 미존재"⟩ : AmountMatch).value_en = none)) :=
  amount_match_null_iff_found_or_null_value (fun _ => silentOracle)
    [⟨fiveCellNote, none, 0, "unmatched"⟩]
    ⟨"1", none, "현금", none, 0,
      [⟨0, "row", none, false,
        [⟨"0_0", [], [], some 5, none, none, none, 0, false,
          some "영문 Note 미존재"⟩]⟩]⟩ (by decide)
    ⟨0, "row", none, false,
      [⟨"0_0", [], [], some 5, none, none, none, 0, false,
        some "영문 Note 미존재"⟩]⟩ (by decide)
    ⟨"0_0", [], [], some 5, none, none, none, 0, false,
      some "영문 Note 미존재"⟩ (by decide)

/-! ## C4 — null-valued cells across the output paths -/

/-- Counterexample to C4 as stated: in the no-foreign-note path the engine
emits an `AmountMatch` (with `found = false`) for a null-valued domestic
cell, rather than producing none. -/
theorem null_cell_counterexample :
    ((reconcile_all (fun _ => silentOracle)
        [⟨nullCellNote, none, 0, "unmatched"⟩]).map
      fun r => r.items.map fun it => it.amount_matches.map
        fun m => (m.value_kr, m.found)) = [[[(none, false)]]] := by
  decide

/-- C4 (amended): null-valued cells yield no `AmountMatch` in the judged
path (every match there carries a non-null domestic value); in the
no-foreign-note path and the failed-pair synthesis every cell — the
null-valued ones included — yields a `found = false` match. -/
theorem null_cell_amount_match_paths (oracle : JudgeOracle)
    (mapping : NoteMapping) :
    (∀ en, mapping.en_note = some en →
      ∀ r, _reconcile_one oracle mapping = .ok r →
        ∀ it ∈ r.items, ∀ m ∈ it.amount_matches, m.value_kr ≠ none) ∧
    (mapping.en_note = none →
      ∃ r, _reconcile_one oracle mapping = .ok r ∧
        r.items = mapping.kr_note.items.map _make_not_found_item) ∧
    ((_make_failed_result mapping).items =
      mapping.kr_note.items.map _make_not_found_item) ∧
    (∀ item : DSDItem,
      (_make_not_found_item item).amount_matches.length = item.amounts.length ∧
      ∀ m ∈ (_make_not_found_item item).amount_matches, m.found = false) := by
  refine ⟨?_, ?_, rfl, ?_⟩
  · intro en hen r hr it hit m hm
    rcases reconcile_one_ok_items hr with ⟨hn, _⟩ | ⟨_, hi2 | ⟨rs, hi3⟩⟩
    · rw [hen] at hn
      exact absurd hn (by simp)
    · rw [hi2] at hit
      obtain ⟨item, _, rfl⟩ := List.mem_map.mp hit
      exact absurd hm (by simp [_make_header_only_item])
    · rw [hi3] at hit
      obtain ⟨item, _, rfl⟩ := List.mem_map.mp hit
      by_cases hh : item.is_header_only
      · rw [if_pos hh] at hm
        exact absurd hm (by simp [_make_header_only_item])
      · rw [if_neg hh] at hm
        obtain ⟨idx, amt, _, hv, rfl⟩ := mem_buildOne_matches hm
        rw [build_amount_match_value_kr]
        exact hv
  · intro hen
    refine ⟨⟨mapping.kr_note.note_number, none, mapping.kr_note.note_title,
      none, mapping.confidence,
      mapping.kr_note.items.map _make_not_found_item⟩, ?_, rfl⟩
    unfold _reconcile_one
    rw [hen]
  · intro item
    obtain ⟨hl, hms⟩ := make_not_found_item_spec item
    exact ⟨hl, fun m hm => (hms m hm).1⟩

/-- Witness for C4's amended statement: a judged pair whose only cell is
non-null yields matches carrying non-null domestic values. -/
theorem null_cell_amount_match_paths_witness :
    (⟨"0_0", [], [], some 5, none, none, none, 1, true, none⟩ :
        AmountMatch).value_kr ≠ none :=
  (null_cell_amount_match_paths foundNullOracle
      ⟨fiveCellNote, some someEnNote, 1, "number"⟩).1
    someEnNote rfl
    ⟨"1", some "1", "현금", some "Cash", 1,
      [⟨0, "row", none, false,
        [⟨"0_0", [], [], some 5, none, none, none, 1, true, none⟩]⟩]⟩
    (by decide)
    ⟨0, "row", none, false,
      [⟨"0_0", [], [], some 5, none, none, none, 1, true, none⟩]⟩
    (by decide)
    ⟨"0_0", [], [], some 5, none, none, none, 1, true, none⟩
    (by decide)

/-! ## C7 — order preservation and per-pair failure isolation -/

/-- An oracle whose replies contain a junk element, making the judged path
raise while building the response map. -/
def junkOracle : JudgeOracle :=
  { single := fun _ => .ok [.junk], chunk := fun _ _ => .ok [.junk] }

/-- C7: the engine yields exactly one `ReconcileResult` per input mapping,
in input order (the i-th result carries the i-th mapping's identity
fields), and a pair whose reconciliation raises is replaced by the
synthesized all-not-found result whose every emitted match has
`found = false`, not aborting the rest. -/
theorem reconcile_all_order_and_failure_isolation (oracles : ℕ → JudgeOracle)
    (mappings : List NoteMapping) :
    (reconcile_all oracles mappings).length = mappings.length ∧
    ∀ i, i < mappings.length →
      ∃ mapping r, mappings[i]? = some mapping ∧
        (reconcile_all oracles mappings)[i]? = some r ∧
        r.note_number_kr = mapping.kr_note.note_number ∧
        r.note_mapping_confidence = mapping.confidence ∧
        ∀ e, _reconcile_one (oracles i) mapping = .error e →
          r = _make_failed_result mapping ∧
          ∀ it ∈ r.items, ∀ m ∈ it.amount_matches, m.found = false := by
  constructor
  · simp [reconcile_all]
  · intro i hi
    have hlen : i < (reconcile_all oracles mappings).length := by
      simpa [reconcile_all] using hi
    have hget : (reconcile_all oracles mappings)[i]? =
        some ((reconcile_all oracles mappings)[i]) :=
      List.getElem?_eq_getElem hlen
    have hval : (reconcile_all oracles mappings)[i] =
        match _reconcile_one (oracles i) mappings[i] with
        | .ok x => x
        | .error _ => _make_failed_result mappings[i] := by
      simp only [reconcile_all, List.getElem_map, List.getElem_enum]
    refine ⟨mappings[i], (reconcile_all oracles mappings)[i],
      List.getElem?_eq_getElem hi, hget, ?_, ?_, ?_⟩
    · rcases ho : _reconcile_one (oracles i) mappings[i] with e | x
      · rw [hval, ho]
        rfl
      · rw [hval, ho]
        exact (reconcile_one_ok_fields ho).1
    · rcases ho : _reconcile_one (oracles i) mappings[i] with e | x
      · rw [hval, ho]
        rfl
      · rw [hval, ho]
        exact (reconcile_one_ok_fields ho).2
    · intro e he
      have hv : (reconcile_all oracles mappings)[i] =
          _make_failed_result mappings[i] := by
        rw [hval, he]
      refine ⟨hv, ?_⟩
      intro it hit m hm
      rw [hv] at hit
      simp only [_make_failed_result] at hit
      obtain ⟨item, _, rfl⟩ := List.mem_map.mp hit
      exact ((make_not_found_item_spec item).2 m hm).1

/-- Witness for C7: a junk judge reply raises inside the pair's task, and
the batch yields the synthesized failed result for that pair. -/
theorem reconcile_all_failure_isolation_witness :
    (reconcile_all (fun _ => junkOracle)
        [⟨fiveCellNote, some someEnNote, 1, "number"⟩])[0]? =
      some (_make_failed_result ⟨fiveCellNote, some someEnNote, 1, "number"⟩) := by
  obtain ⟨mapping, r, hmap, hr, _, _, herr⟩ :=
    (reconcile_all_order_and_failure_isolation (fun _ => junkOracle)
      [⟨fiveCellNote, some someEnNote, 1, "number"⟩]).2 0 (by norm_num)
  have hmm : mapping = ⟨fiveCellNote, some someEnNote, 1, "number"⟩ := by
    cases hmap
    rfl
  rw [hmm] at herr
  have hfail := herr .typeError (by decide)
  rw [hr, hfail.1]

/-! ## C8 — internal consistency of `ReconcileResult` -/

/-- Counterexample to C8 as stated: a header-only input item that carries
an amount cell (violating the upstream `Item` invariant) makes the
no-foreign-note path emit a header-only `ReconcileItem` with a non-empty
match list. -/
theorem header_only_matches_counterexample :
    ((reconcile_all (fun _ => silentOracle)
        [⟨headerWithAmountNote, none, 0, "unmatched"⟩]).map
      fun r => r.items.map fun it => (it.is_header_only,
        it.amount_matches.length)) = [[(true, 1)]] := by
  decide

/-- Summing the is-match-true counts is bounded by the non-header match
counts when header-only items never contain a `some true` match. -/
theorem matched_le_total_of_items {items : List ReconcileItem}
    (h : ∀ it ∈ items, it.is_header_only = true →
      ∀ m ∈ it.amount_matches, m.is_match ≠ some true) :
    (items.map
      (fun i => (i.amount_matches.filter (fun m => m.is_match = some true)).length)).sum ≤
    ((items.filter (fun i => !i.is_header_only)).map
      (fun i => i.amount_matches.length)).sum := by
  induction items with
  | nil => simp
  | cons it rest ih =>
    have hrest := ih fun x hx => h x (List.mem_cons_of_mem it hx)
    have hle : (it.amount_matches.filter
        (fun m => m.is_match = some true)).length ≤
        it.amount_matches.length := List.length_filter_le _ _
    by_cases hh : it.is_header_only
    · have hz : (it.amount_matches.filter
          (fun m => m.is_match = some true)).length = 0 := by
        rw [List.length_eq_zero]
        rw [List.filter_eq_nil_iff]
        intro m hm
        simpa using h it (List.mem_cons_self it rest) hh m hm
      simp only [List.map_cons, List.sum_cons, List.filter_cons, hh, hz,
        Bool.not_true]
      simpa using hrest
    · have hb : it.is_header_only = false := by
        simpa using hh
      simp only [List.map_cons, List.sum_cons, List.filter_cons, hb,
        Bool.not_false, if_true, List.map_cons, List.sum_cons]
      omega

/-- C8 (amended): every engine result satisfies
`matched_count ≤ total_amounts` unconditionally; and provided every
header-only input item carries no amount cells (the documented `Item`
invariant), every header-only result item carries no matches. -/
theorem reconcile_result_internal_consistency (oracles : ℕ → JudgeOracle)
    (mappings : List NoteMapping) :
    ∀ r ∈ reconcile_all oracles mappings,
      ((∀ mp ∈ mappings, ∀ it ∈ mp.kr_note.items,
          it.is_header_only = true → it.amounts = []) →
        ∀ it ∈ r.items, it.is_header_only = true → it.amount_matches = []) ∧
      r.matched_count ≤ r.total_amounts := by
  intro r hr
  obtain ⟨i, mapping, hmap, hcase⟩ := mem_reconcile_all hr
  have hmem : mapping ∈ mappings := by
    exact List.getElem?_mem hmap
  have hitems : r.items = mapping.kr_note.items.map _make_not_found_item ∨
      r.items = mapping.kr_note.items.map _make_header_only_item ∨
      ∃ rs, r.items = mapping.kr_note.items.map fun item =>
        if item.is_header_only then _make_header_only_item item
        else buildOneReconcileItem rs item := by
    rcases hcase with ⟨x, hx, rfl⟩ | ⟨_, rfl⟩
    · rcases reconcile_one_ok_items hx with ⟨_, h1⟩ | ⟨_, h2 | h3⟩
      · exact Or.inl h1
      · exact Or.inr (Or.inl h2)
      · exact Or.inr (Or.inr h3)
    · exact Or.inl rfl
  have hitspec : ∀ it ∈ r.items,
      (it.is_header_only = true →
        ∀ m ∈ it.amount_matches, m.is_match ≠ some true) ∧
      (it.is_header_only = true →
        (∃ item ∈ mapping.kr_note.items, it = _make_not_found_item item ∧
          it.amount_matches.length = item.amounts.length) ∨
        it.amount_matches = []) := by
    intro it hit
    rcases hitems with h1 | h2 | ⟨rs, h3⟩
    · rw [h1] at hit
      obtain ⟨item, hitem, rfl⟩ := List.mem_map.mp hit
      refine ⟨fun _ m hm => ((make_not_found_item_spec item).2 m hm).2.2.2,
        fun _ => Or.inl ⟨item, hitem, rfl, (make_not_found_item_spec item).1⟩⟩
    · rw [h2] at hit
      obtain ⟨item, _, rfl⟩ := List.mem_map.mp hit
      exact ⟨fun _ m hm => absurd hm (by simp [_make_header_only_item]),
        fun _ => Or.inr rfl⟩
    · rw [h3] at hit
      obtain ⟨item, _, rfl⟩ := List.mem_map.mp hit
      by_cases hh : item.is_header_only
      · rw [if_pos hh]
        exact ⟨fun _ m hm => absurd hm (by simp [_make_header_only_item]),
          fun _ => Or.inr rfl⟩
      · rw [if_neg hh]
        refine ⟨fun hc m hm => ?_, fun hc => ?_⟩
        · exact absurd hc (by simp [buildOneReconcileItem])
        · exact absurd hc (by simp [buildOneReconcileItem])
  constructor
  · intro hinv it hit hh
    rcases (hitspec it hit).2 hh with ⟨item, hitem, hiteq, hlen⟩ | hempty
    · have hhdr : item.is_header_only = true := by
        rw [hiteq] at hh
        simpa [_make_not_found_item] using hh
      have hz : item.amounts = [] := hinv mapping hmem item hitem hhdr
      have hl0 : it.amount_matches.length = 0 := by
        rw [hlen, hz]
        rfl
      exact List.length_eq_zero.mp hl0
    · exact hempty
  · exact matched_le_total_of_items fun it hit => (hitspec it hit).1

/-- Witness for C8 at a concrete batch result of the no-foreign-note path. -/
theorem reconcile_result_internal_consistency_witness :
    (⟨"1", none, "현금", none, 0,
      [⟨0, "row", none, false,
        [⟨"0_0", [], [], some 5, none, none, none, 0, false,
          some "영문 Note 미존재"⟩]⟩]⟩ : ReconcileResult).matched_count ≤
    (⟨"1", none, "현금", none, 0,
      [⟨0, "row", none, false,
        [⟨"0_0", [], [], some 5, none, none, none, 0, false,
          some "영문 Note 미존재"⟩]⟩]⟩ : ReconcileResult).total_amounts :=
  (reconcile_result_internal_consistency (fun _ => silentOracle)
    [⟨fiveCellNote, none, 0, "unmatched"⟩]
    ⟨"1", none, "현금", none, 0,
      [⟨0, "row", none, false,
        [⟨"0_0", [], [], some 5, none, none, none, 0, false,
          some "영문 Note 미존재"⟩]⟩]⟩ (by decide)).2

/-! ## C6 — truncated-array recovery of `chat_json` -/

/-- Reading the parsed objects of the recovery scan state off the
companion span-collecting state. -/
def convState {J : Type} (loads : String → Option J) (st : ScanState String) :
    ScanState J :=
  { depth := st.depth, in_string := st.in_string
    escape_next := st.escape_next, obj_start := st.obj_start
    objects := st.objects.filterMap loads }

/-- The recovery step simulates the span-collecting step through
`convState`. -/
theorem scanStep_conv {J : Type} (loads : String → Option J) (text : List Char)
    (st : ScanState String) (p : ℕ × Char) :
    scanStep loads text (convState loads st) p =
      convState loads (spanStep text st p) := by
  unfold scanStep spanStep scanStepG convState
  simp only []
  split_ifs with h1 h2 h3 h4 h5 h6 <;> try rfl
  rcases hl : loads (slice text (st.obj_start.getD 0) p.1) with _ | jv <;>
    simp [List.filterMap_append, hl]

/-- The recovered objects are exactly the parse successes over the
top-level spans, in order. -/
theorem scan_objects_eq_spans {J : Type} (loads : String → Option J)
    (text : String) :
    (text.data.enum.foldl (scanStep loads text.data) initScan).objects =
      (topLevelSpans text).filterMap loads := by
  unfold topLevelSpans
  have hinit : (initScan : ScanState J) = convState loads initScan := by
    simp [initScan, convState]
  rw [hinit]
  rw [List.foldl_hom (convState loads) (spanStep text.data)
    (scanStep loads text.data) text.data.enum initScan
    (fun st q => scanStep_conv loads text.data st q)]
  rfl

/-- C6: for a judge response that fails direct JSON parsing after the
fenced-code strip and whose cleaned text begins with `[`, `chat_json`
returns exactly the list of complete top-level JSON objects recoverable
from the text, in order, and raises a parse error when that list is
empty. -/
theorem chat_json_truncated_array_recovery {J : Type}
    (loads : String → Option J) (raw : String)
    (hfail : loads (cleanResponse raw) = none)
    (harr : "[".data.isPrefixOf (pyStrip (cleanResponse raw)).data) :
    chat_json loads raw =
      if ((topLevelSpans (cleanResponse raw)).filterMap loads).isEmpty then
        Except.error PyError.valueError
      else
        Except.ok (ChatJsonOut.recovered
          ((topLevelSpans (cleanResponse raw)).filterMap loads)) := by
  unfold chat_json
  rw [hfail]
  unfold _recover_json_array
  rw [harr]
  simp only [Bool.not_true, Bool.false_eq_true, if_false]
  rw [scan_objects_eq_spans loads (cleanResponse raw)]
  rcases hobjs : (topLevelSpans (cleanResponse raw)).filterMap loads with _ | ⟨o, os⟩
  · simp
  · simp

/-- A toy `json.loads` oracle recognising the two complete objects of the
witness response. -/
def toyLoads (s : String) : Option ℕ :=
  if s = "\x7b\"a\":1\x7d" then some 1
  else if s = "\x7b\"b\":2\x7d" then some 2
  else none

/-- Witness for C6: an array truncated mid-third-object yields exactly its
two leading complete objects. -/
theorem chat_json_truncated_array_recovery_witness :
    chat_json toyLoads "[\x7b\"a\":1\x7d, \x7b\"b\":2\x7d, \x7b\"c\":" =
      .ok (.recovered [1, 2]) := by
  have h := chat_json_truncated_array_recovery toyLoads
    "[\x7b\"a\":1\x7d, \x7b\"b\":2\x7d, \x7b\"c\":" (by decide) (by decide)
  rw [h]
  decide

/-! ## C2 — one `NoteMapping` per domestic note, in input order -/

/-- `normOk` and `_norm` agree. -/
theorem normOk_eq_ok {s t : String} : normOk s = some t ↔ _norm s = .ok t := by
  unfold normOk
  rcases h : _norm s with e | u <;> simp

/-- An isSome `normOk` yields an `_norm` success. -/
theorem normOk_isSome {s : String} (h : (normOk s).isSome) :
    ∃ t, _norm s = .ok t := by
  rcases ho : normOk s with _ | t
  · rw [ho] at h
    exact absurd h (by simp)
  · exact ⟨t, normOk_eq_ok.mp ho⟩

/-- A value stored in `dictInsert d k v` is `v` or one of `d`'s values. -/
theorem dictInsert_values {d : List (String × EnNote)} {k : String}
    {v : EnNote} : ∀ kv ∈ dictInsert d k v, kv.2 = v ∨ kv.2 ∈ d.map (fun q => q.2) := by
  intro kv hkv
  unfold dictInsert at hkv
  split_ifs at hkv
  · rcases List.mem_map.mp hkv with ⟨q, hq, hqe⟩
    by_cases hqk : q.1 = k
    · rw [if_pos hqk] at hqe
      rw [← hqe]
      exact Or.inl rfl
    · rw [if_neg hqk] at hqe
      rw [← hqe]
      exact Or.inr (List.mem_map_of_mem (fun q => q.2) hq)
  · rcases List.mem_append.mp hkv with hin | hone
    · exact Or.inr (List.mem_map_of_mem (fun q => q.2) hin)
    · rw [List.mem_singleton.mp hone]
      exact Or.inl rfl

/-- The dict-building folds of the mapper succeed when every note number
normalises, and every stored value is a folded note or an initial value. -/
theorem buildDict_ok (notes : List EnNote) :
    (∀ n ∈ notes, (normOk n.note_number).isSome) →
    ∀ acc : List (String × EnNote),
      ∃ d, (notes.foldlM
          (fun d n => do
            let k ← _norm n.note_number
            pure (dictInsert d k n)) acc) = .ok d ∧
        ∀ kv ∈ d, kv.2 ∈ notes ∨ kv.2 ∈ acc.map (fun q => q.2) := by
  induction notes with
  | nil =>
    intro _ acc
    exact ⟨acc, rfl, fun kv hkv => Or.inr (List.mem_map_of_mem _ hkv)⟩
  | cons n rest ih =>
    intro h acc
    obtain ⟨t, ht⟩ := normOk_isSome (h n (List.mem_cons_self n rest))
    have hrest : ∀ x ∈ rest, (normOk x.note_number).isSome := fun x hx =>
      h x (List.mem_cons_of_mem n hx)
    obtain ⟨d, hd, hdv⟩ := ih hrest (dictInsert acc t n)
    refine ⟨d, ?_, ?_⟩
    · rw [List.foldlM_cons, ht]
      simpa using hd
    · intro kv hkv
      rcases hdv kv hkv with h1 | h2
      · exact Or.inl (List.mem_cons_of_mem n h1)
      · rcases List.mem_map.mp h2 with ⟨q, hq, hqe⟩
        rcases dictInsert_values q hq with hv | hacc
        · rw [← hqe, hv]
          exact Or.inl (List.mem_cons_self n rest)
        · rw [← hqe]
          exact Or.inr hacc

/-- The note-number pre-normalisation `mapM` of `map_notes` succeeds under
normalisable numbers, pairing each note with its normalised number. -/
theorem mapM_norm_ok (l : List DSDNote) :
    (∀ kr ∈ l, (normOk kr.note_number).isSome) →
    ∃ krN, (l.mapM fun kr => do
        let k ← _norm kr.note_number
        pure (kr, k)) = Except.ok krN ∧
      krN.map Prod.fst = l ∧
      ∀ p ∈ krN, normOk p.1.note_number = some p.2 := by
  induction l with
  | nil =>
    intro _
    exact ⟨[], rfl, rfl, by simp⟩
  | cons kr rest ih =>
    intro h
    obtain ⟨t, ht⟩ := normOk_isSome (h kr (List.mem_cons_self kr rest))
    obtain ⟨krN, hok, hfst, hnorm⟩ := ih fun x hx =>
      h x (List.mem_cons_of_mem kr hx)
    refine ⟨(kr, t) :: krN, ?_, ?_, ?_⟩
    · rw [List.mapM_cons]
      rw [ht, hok]
      rfl
    · simp [hfst]
    · intro p hp
      rcases List.mem_cons.mp hp with rfl | hmem
      · exact normOk_eq_ok.mpr ht
      · exact hnorm p hmem

/-- Decomposition of stage 1: number-matched mappings in order, and the
unmatched remainder in order. -/
theorem stage1_spec (enDict : List (String × EnNote)) (krN : List (DSDNote × String)) :
    (stage1 enDict krN).1.map (fun m => m.kr_note) =
      (krN.filter (fun p => (dictLookup enDict p.2).isSome)).map Prod.fst ∧
    (stage1 enDict krN).2 =
      krN.filter (fun p => !(dictLookup enDict p.2).isSome) := by
  induction krN with
  | nil => exact ⟨rfl, rfl⟩
  | cons p rest ih =>
    rcases p with ⟨kr, k⟩
    rcases hd : dictLookup enDict k with _ | en
    · simp only [stage1, hd, List.filter_cons]
      simp [ih.1, ih.2, hd]
    · simp only [stage1, hd, List.filter_cons]
      simp [ih.1, ih.2, hd]

/-- `findKrByNorm` succeeds and finds a note with the sought norm. -/
theorem findKrByNorm_ok (unkr : List DSDNote) (k : String) :
    (∀ kr ∈ unkr, (normOk kr.note_number).isSome) →
    ∃ o, findKrByNorm unkr k = .ok o ∧
      (∀ kr, o = some kr → kr ∈ unkr ∧ normOk kr.note_number = some k) ∧
      (o = none → ∀ kr ∈ unkr, normOk kr.note_number ≠ some k) := by
  induction unkr with
  | nil =>
    intro _
    exact ⟨none, rfl, by simp, by simp⟩
  | cons kr rest ih =>
    intro h
    obtain ⟨t, ht⟩ := normOk_isSome (h kr (List.mem_cons_self kr rest))
    obtain ⟨o, ho, hsome, hnone⟩ := ih fun x hx => h x (List.mem_cons_of_mem kr hx)
    by_cases hk : t = k
    · refine ⟨some kr, ?_, ?_, by simp⟩
      · unfold findKrByNorm
        rw [ht]
        subst hk
        simp [Bind.bind, Except.bind]
        rfl
      · intro x hx
        cases hx
        exact ⟨List.mem_cons_self kr rest, normOk_eq_ok.mpr (hk ▸ ht)⟩
    · refine ⟨o, ?_, ?_, ?_⟩
      · unfold findKrByNorm
        rw [ht]
        simp only [Bind.bind, Except.bind]
        rw [if_neg hk]
        exact ho
      · intro x hx
        obtain ⟨hmem, hn⟩ := hsome x hx
        exact ⟨List.mem_cons_of_mem kr hmem, hn⟩
      · intro h0 x hx
        rcases List.mem_cons.mp hx with rfl | hmem
        · rw [normOk_eq_ok.mpr ht]
          intro hc
          exact hk (by cases hc; rfl)
        · exact hnone h0 x hmem

/-- The judge-entry loop of `_llm_map` succeeds under normalisable inputs:
each accepted entry contributes one mapping for a distinct unmatched
domestic note, and `mapped_kr_norms` lists their norms. -/
theorem llmLoop_ok (unkr : List DSDNote) (enDict2 : List (String × EnNote))
    (hu : ∀ kr ∈ unkr, (normOk kr.note_number).isSome) :
    ∀ es : List MapJudgeEntry,
      (∀ e ∈ es, (normOk e.kr_num).isSome ∧
        ∀ s, truthyEnNum e = some s → (normOk s).isSome) →
      es.Pairwise (fun a b => normOk a.kr_num ≠ normOk b.kr_num) →
      ∃ res mapped, llmLoop unkr enDict2 es = .ok (res, mapped) ∧
        res.map (fun m => normOk m.kr_note.note_number) = mapped.map some ∧
        (∀ m ∈ res, m.kr_note ∈ unkr) ∧
        mapped.Pairwise (fun a b => a ≠ b) ∧
        (∀ k ∈ mapped, ∃ e ∈ es, normOk e.kr_num = some k) := by
  intro es
  induction es with
  | nil =>
    intro _ _
    exact ⟨[], [], rfl, rfl, by simp, by simp, by simp⟩
  | cons e rest ih =>
    intro he hp
    obtain ⟨t, ht⟩ := normOk_isSome (he e (List.mem_cons_self e rest)).1
    obtain ⟨res', mapped', hok', heq', hmem', hpw', hent'⟩ :=
      ih (fun x hx => he x (List.mem_cons_of_mem e hx)) (List.Pairwise.of_cons hp)
    obtain ⟨o, ho, hsome, hnone⟩ := findKrByNorm_ok unkr t hu
    rcases o with _ | kr
    · refine ⟨res', mapped', ?_, heq', hmem', hpw', ?_⟩
      · unfold llmLoop
        rw [ht]
        simp only [Bind.bind, Except.bind]
        rw [ho]
        exact hok'
      · intro k hk
        obtain ⟨x, hx, hxn⟩ := hent' k hk
        exact ⟨x, List.mem_cons_of_mem e hx, hxn⟩
    · obtain ⟨hkmem, hknorm⟩ := hsome kr rfl
      have hen : ∃ v, normEnNum e = .ok v := by
        unfold normEnNum
        rcases hes : truthyEnNum e with _ | s
        · exact ⟨none, rfl⟩
        · obtain ⟨u, hu2⟩ := normOk_isSome ((he e (List.mem_cons_self e rest)).2 s hes)
          refine ⟨some u, ?_⟩
          show Except.map some (_norm s) = Except.ok (some u)
          rw [hu2]
          rfl
      obtain ⟨v, hv⟩ := hen
      refine ⟨⟨kr, v.bind (dictLookup enDict2), e.confidence.getD (1 / 2), "llm"⟩ :: res',
        t :: mapped', ?_, ?_, ?_, ?_, ?_⟩
      · unfold llmLoop
        rw [ht]
        simp only [Bind.bind, Except.bind]
        rw [ho]
        simp only []
        rw [hv]
        simp only [Bind.bind, Except.bind]
        rw [hok']
      · simp only [List.map_cons, heq', hknorm]
      · intro m hm
        rcases List.mem_cons.mp hm with rfl | hmm
        · exact hkmem
        · exact hmem' m hmm
      · refine List.Pairwise.cons ?_ hpw'
        intro k' hk'
        obtain ⟨e', he', hen'⟩ := hent' k' hk'
        have hne := (List.pairwise_cons.mp hp).1 e' he'
        rw [normOk_eq_ok.mpr ht, hen'] at hne
        intro hc
        exact hne (by rw [hc])
      · intro k hk
        rcases List.mem_cons.mp hk with rfl | hkm
        · exact ⟨e, List.mem_cons_self e rest, normOk_eq_ok.mpr ht⟩
        · obtain ⟨x, hx, hxn⟩ := hent' k hkm
          exact ⟨x, List.mem_cons_of_mem e hx, hxn⟩

/-- The trailing loop of `_llm_map` succeeds, yielding one `unmatched`
mapping (with no foreign note) per domestic note whose norm is not in
`mapped_kr_norms`, in input order. -/
theorem trailingUnmatched_ok (mapped : List String) (unkr : List DSDNote) :
    (∀ kr ∈ unkr, (normOk kr.note_number).isSome) →
    ∃ tail, trailingUnmatched mapped unkr = .ok tail ∧
      tail.map (fun m => m.kr_note) =
        unkr.filter (fun kr => !(mapped.any
          (fun k => decide (normOk kr.note_number = some k)))) := by
  induction unkr with
  | nil =>
    intro _
    exact ⟨[], rfl, rfl⟩
  | cons kr rest ih =>
    intro h
    obtain ⟨t, ht⟩ := normOk_isSome (h kr (List.mem_cons_self kr rest))
    obtain ⟨tail', hok', heq'⟩ := ih fun x hx => h x (List.mem_cons_of_mem kr hx)
    have hnk : normOk kr.note_number = some t := normOk_eq_ok.mpr ht
    have hpred : (mapped.any (fun k => decide (normOk kr.note_number = some k))) =
        mapped.contains t := by
      rw [hnk]
      rcases hc : mapped.contains t with _ | _
      · rw [List.any_eq_false]
        intro k hk
        simp only [decide_eq_true_eq, Option.some.injEq]
        intro hc2
        rw [← hc2] at hk
        have helem := List.elem_iff.mpr hk
        have hcc : List.elem t mapped = false := hc
        rw [hcc] at helem
        exact Bool.noConfusion helem
      · rw [List.any_eq_true]
        have hmem := List.elem_iff.mp (show List.elem t mapped = true from hc)
        exact ⟨t, hmem, by simp⟩
    by_cases hct : mapped.contains t
    · refine ⟨tail', ?_, ?_⟩
      · unfold trailingUnmatched
        rw [ht]
        simp only [Bind.bind, Except.bind]
        rw [hok']
        simp only [hct, if_pos]
      · rw [List.filter_cons]
        have : (!(mapped.any (fun k => decide (normOk kr.note_number = some k)))) = false := by
          rw [hpred, hct]
          rfl
        rw [this]
        simp only [Bool.false_eq_true, if_false]
        exact heq'
    · have hct' : mapped.contains t = false := by
        simpa using hct
      refine ⟨⟨kr, none, 0, "unmatched"⟩ :: tail', ?_, ?_⟩
      · unfold trailingUnmatched
        rw [ht]
        simp only [Bind.bind, Except.bind]
        rw [hok']
        simp only [hct', Bool.false_eq_true, if_false]
      · rw [List.filter_cons]
        have : (!(mapped.any (fun k => decide (normOk kr.note_number = some k)))) = true := by
          rw [hpred, hct']
          rfl
        rw [this]
        simp only [if_pos]
        rw [List.map_cons, heq']

/-- `_llm_map` succeeds under normalisable, norm-distinct inputs with a
norm-distinct judge reply, and its output covers the unmatched domestic
notes exactly once each. -/
theorem llm_map_ok (judge : MapJudge) (unkr : List DSDNote) (unEn : List EnNote)
    (hu : ∀ kr ∈ unkr, (normOk kr.note_number).isSome)
    (hnodup : unkr.Pairwise (fun a b => normOk a.note_number ≠ normOk b.note_number))
    (hen : ∀ n ∈ unEn, (normOk n.note_number).isSome)
    (hj : ∀ krl enl,
      ((judge krl enl).Pairwise (fun a b => normOk a.kr_num ≠ normOk b.kr_num)) ∧
      ∀ e ∈ judge krl enl, (normOk e.kr_num).isSome ∧
        ∀ s, truthyEnNum e = some s → (normOk s).isSome) :
    ∃ res, _llm_map judge unkr unEn = .ok res ∧
      (res.map (fun m => m.kr_note)).Perm unkr := by
  have hukr_nodup : unkr.Nodup := by
    refine hnodup.imp ?_
    intro a b hab
    intro hc
    rw [hc] at hab
    exact hab rfl
  unfold _llm_map
  by_cases hE : unEn.isEmpty
  · rw [if_pos hE]
    refine ⟨_, rfl, ?_⟩
    have hid : (unkr.map fun kr =>
        (⟨kr, none, 0, "unmatched"⟩ : NoteMapping)).map (fun m => m.kr_note) =
        unkr := by
      rw [List.map_map]
      exact List.map_id' unkr
    rw [hid]
  · rw [if_neg hE]
    obtain ⟨d, hd, _⟩ := buildDict_ok unEn hen []
    set es := judge (unkr.map fun kr => (kr.note_number, kr.note_title))
      (unEn.map fun en => (en.note_number, en.note_title)) with hes
    obtain ⟨res', mapped', hok', heq', hmem', hpw', hent'⟩ :=
      llmLoop_ok unkr d hu es (hj _ _).2 (hj _ _).1
    obtain ⟨tail, htok, hteq⟩ := trailingUnmatched_ok mapped' unkr hu
    refine ⟨res' ++ tail, ?_, ?_⟩
    · rw [hd]
      simp only [Bind.bind, Except.bind]
      rw [hok']
      simp only []
      rw [htok]
    · rw [List.map_append]
      -- the loop-matched notes are exactly those whose norm was recorded
      have hin : ∀ x, x ∈ res'.map (fun m => m.kr_note) ↔
          x ∈ unkr ∧ (mapped'.any
            (fun k => decide (normOk x.note_number = some k))) = true := by
        intro x
        constructor
        · intro hx
          obtain ⟨m, hm, rfl⟩ := List.mem_map.mp hx
          refine ⟨hmem' m hm, ?_⟩
          have : normOk m.kr_note.note_number ∈ mapped'.map some := by
            rw [← heq']
            exact List.mem_map_of_mem _ hm
          obtain ⟨k, hk, hke⟩ := List.mem_map.mp this
          rw [List.any_eq_true]
          exact ⟨k, hk, by simp [← hke]⟩
        · intro ⟨hxu, hany⟩
          obtain ⟨k, hk, hke⟩ := List.any_eq_true.mp hany
          simp only [decide_eq_true_eq] at hke
          have : some k ∈ res'.map (fun m => normOk m.kr_note.note_number) := by
            rw [heq']
            exact List.mem_map_of_mem _ hk
          obtain ⟨m, hm, hme⟩ := List.mem_map.mp this
          have hyu : m.kr_note ∈ unkr := hmem' m hm
          have hxy : x = m.kr_note := by
            by_contra hne
            have := List.Pairwise.forall
              (by
                intro a b hab hc
                exact hab hc.symm) hnodup hxu hyu hne
            rw [hke, hme] at this
            exact this rfl
          rw [hxy]
          exact List.mem_map_of_mem _ hm
      have hres_nodup : (res'.map (fun m => m.kr_note)).Nodup := by
        have hsome_nodup : (mapped'.map some).Nodup := by
          refine (List.Pairwise.map some ?_ hpw' : List.Pairwise (fun a b => a ≠ b) _)
          intro a b hab hc
          exact hab (by injection hc)
        have := heq' ▸ hsome_nodup
        -- `this : (res'.map (norm ∘ kr_note)).Nodup`
        have hnodup2 : List.Pairwise
            (fun a b => normOk a.kr_note.note_number ≠ normOk b.kr_note.note_number)
            res' := List.pairwise_map.mp this
        refine List.pairwise_map.mpr ?_
        refine hnodup2.imp ?_
        intro a b hab hc
        rw [hc] at hab
        exact hab rfl
      have hfil_perm : (res'.map (fun m => m.kr_note)).Perm
          (unkr.filter (fun x => mapped'.any
            (fun k => decide (normOk x.note_number = some k)))) := by
        rw [List.perm_ext_iff_of_nodup hres_nodup
          (List.Nodup.filter _ hukr_nodup)]
        intro a
        rw [List.mem_filter]
        exact hin a
      rw [hteq]
      exact List.Perm.trans
        (hfil_perm.append_right _)
        (List.filter_append_perm _ unkr)
/-! ## C2: one mapping per domestic note, in input order -/

theorem except_bind_ok {ε α β : Type} (a : α) (f : α → Except ε β) :
    (Except.ok a : Except ε α) >>= f = f a := rfl

theorem eq_singleton_of_mem_of_unique {α : Type} {l : List α} {x : α}
    (hx : x ∈ l) (hu : ∀ y ∈ l, y = x) (hn : l.Nodup) : l = [x] := by
  cases l with
  | nil => cases hx
  | cons a t =>
    have ha : a = x := hu a (List.mem_cons_self a t)
    subst ha
    have ht : t = [] := by
      rw [List.eq_nil_iff_forall_not_mem]
      intro y hy
      have hya : y = a := hu y (List.mem_cons_of_mem a hy)
      rw [hya] at hy
      exact (List.nodup_cons.mp hn).1 hy
    rw [ht]

/-- Under pairwise-distinct raw note numbers, `kr_order` sends the `i`-th
note's number back to `i`. -/
theorem krOrderKey_self (kr_notes : List DSDNote)
    (hnum : kr_notes.Pairwise (fun a b => a.note_number ≠ b.note_number))
    (i : ℕ) (hi : i < kr_notes.length) :
    krOrderKey kr_notes kr_notes[i].note_number = i := by
  have hxmem : ((i, kr_notes[i]) : ℕ × DSDNote) ∈ kr_notes.enum := by
    rw [List.mem_enum_iff_getElem?]
    exact List.getElem?_eq_getElem hi
  have hx : ((i, kr_notes[i]) : ℕ × DSDNote) ∈
      kr_notes.enum.filter (fun p => p.2.note_number = kr_notes[i].note_number) := by
    rw [List.mem_filter]
    exact ⟨hxmem, by simp⟩
  have hpg := List.pairwise_iff_getElem.mp hnum
  have huniq : ∀ q ∈ kr_notes.enum.filter
      (fun p => p.2.note_number = kr_notes[i].note_number),
      q = ((i, kr_notes[i]) : ℕ × DSDNote) := by
    intro q hq
    rw [List.mem_filter] at hq
    obtain ⟨hqm, hqp⟩ := hq
    rw [List.mem_enum_iff_getElem?] at hqm
    obtain ⟨hql, hqe⟩ := List.getElem?_eq_some.mp hqm
    have hqn : kr_notes[q.1].note_number = kr_notes[i].note_number := by
      rw [hqe]
      exact of_decide_eq_true hqp
    have hq1 : q.1 = i := by
      rcases Nat.lt_trichotomy q.1 i with hlt | heq | hgt
      · exact absurd hqn (hpg q.1 i hql hi hlt)
      · exact heq
      · exact absurd hqn.symm (hpg i q.1 hi hql hgt)
    have hq2 : q.2 = kr_notes[i] := by
      rw [hq1] at hqm
      rw [List.getElem?_eq_getElem hi] at hqm
      exact (Option.some_inj.mp hqm).symm
    exact Prod.ext hq1 hq2
  have hnodupE : (kr_notes.enum.filter
      (fun p => p.2.note_number = kr_notes[i].note_number)).Nodup := by
    have h1 : (kr_notes.enum.map Prod.fst).Nodup := by
      rw [List.enum_map_fst]
      exact List.nodup_range _
    have h2 : kr_notes.enum.Nodup := List.Nodup.of_map _ h1
    exact h2.filter _
  have hfil := eq_singleton_of_mem_of_unique hx huniq hnodupE
  unfold krOrderKey
  rw [hfil]
  rfl

/-- Sending each domestic note through `kr_order` enumerates `0..n-1`. -/
theorem krOrderKey_map_range (kr_notes : List DSDNote)
    (hnum : kr_notes.Pairwise (fun a b => a.note_number ≠ b.note_number)) :
    kr_notes.map (fun n => krOrderKey kr_notes n.note_number) =
      List.range kr_notes.length := by
  apply List.ext_getElem
  · simp
  · intro i h1 h2
    rw [List.getElem_map, List.getElem_range]
    exact krOrderKey_self kr_notes hnum i (by simpa using h1)

/-- The final stable sort of `map_notes` restores the domestic input order
whenever the pre-sort mappings cover the notes exactly once. -/
theorem map_notes_sorted_eq (kr_notes : List DSDNote) (pre : List NoteMapping)
    (hnum : kr_notes.Pairwise (fun a b => a.note_number ≠ b.note_number))
    (hperm : (pre.map (fun m => m.kr_note)).Perm kr_notes) :
    (pre.insertionSort (mappingOrder kr_notes)).map (fun m => m.kr_note) =
      kr_notes := by
  have hpermS : (List.insertionSort (mappingOrder kr_notes) pre).Perm pre :=
    List.perm_insertionSort _ pre
  have hpermG : ((List.insertionSort (mappingOrder kr_notes) pre).map
      (fun m => m.kr_note)).Perm kr_notes :=
    (hpermS.map _).trans hperm
  haveI : IsTotal NoteMapping (mappingOrder kr_notes) :=
    ⟨fun a b => Nat.le_total _ _⟩
  haveI : IsTrans NoteMapping (mappingOrder kr_notes) :=
    ⟨fun a b c hab hbc => Nat.le_trans hab hbc⟩
  have hsorted : List.Sorted (mappingOrder kr_notes)
      (List.insertionSort (mappingOrder kr_notes) pre) :=
    List.sorted_insertionSort _ pre
  have hrange : kr_notes.map (fun n => krOrderKey kr_notes n.note_number) =
      List.range kr_notes.length := krOrderKey_map_range kr_notes hnum
  have hgle : ((List.insertionSort (mappingOrder kr_notes) pre).map
      (fun m => m.kr_note)).Pairwise (fun a b =>
        krOrderKey kr_notes a.note_number ≤ krOrderKey kr_notes b.note_number) := by
    refine List.pairwise_map.mpr ?_
    exact hsorted
  have hkeys : (((List.insertionSort (mappingOrder kr_notes) pre).map
      (fun m => m.kr_note)).map
        (fun n => krOrderKey kr_notes n.note_number)).Nodup := by
    have hp2 := hpermG.map (fun n => krOrderKey kr_notes n.note_number)
    rw [hrange] at hp2
    exact hp2.nodup_iff.mpr (List.nodup_range _)
  have hgne := List.pairwise_map.mp
    (hkeys : List.Pairwise (fun a b => a ≠ b) _)
  have hgstrict : ((List.insertionSort (mappingOrder kr_notes) pre).map
      (fun m => m.kr_note)).Pairwise (fun a b =>
        krOrderKey kr_notes a.note_number < krOrderKey kr_notes b.note_number) := by
    refine (List.Pairwise.and hgle hgne).imp ?_
    intro a b hab
    exact lt_of_le_of_ne hab.1 hab.2
  have hkrstrict : kr_notes.Pairwise (fun a b =>
      krOrderKey kr_notes a.note_number < krOrderKey kr_notes b.note_number) := by
    have hlt : (kr_notes.map
        (fun n => krOrderKey kr_notes n.note_number)).Pairwise
        (fun a b => a < b) := by
      rw [hrange]
      exact List.pairwise_lt_range _
    exact List.pairwise_map.mp hlt
  haveI : IsAntisymm DSDNote (fun a b =>
      krOrderKey kr_notes a.note_number < krOrderKey kr_notes b.note_number) :=
    ⟨fun a b h1 h2 => absurd h2 (Nat.lt_asymm h1)⟩
  exact List.eq_of_perm_of_sorted hpermG hgstrict hkrstrict

/-- Every foreign note produced by `unmatched_en` resolution is a value of
the foreign-number dictionary. -/
theorem unmatchedEnNotes_mem (enDict : List (String × EnNote)) (ks : List String)
    {n : EnNote} (hn : n ∈ unmatchedEnNotes enDict ks) :
    ∃ kv ∈ enDict, kv.2 = n := by
  unfold unmatchedEnNotes at hn
  obtain ⟨k, _, hlk⟩ := List.mem_filterMap.mp hn
  unfold dictLookup at hlk
  obtain ⟨p, hfind, hpe⟩ := Option.map_eq_some'.mp hlk
  exact ⟨p, List.mem_of_find?_eq_some hfind, hpe⟩

/-- C2 (amended): when every note number on both sides normalises without
raising, the domestic notes have pairwise-distinct normalised numbers, and
the judge's replies carry normalisable, pairwise-distinct domestic numbers,
`map_notes` returns exactly one `NoteMapping` per input domestic note —
none dropped, none duplicated — and the mapping order equals the input
note order.  (As stated over all judge responses the claim fails: a reply
repeating one `kr_num` duplicates that note's mapping.) -/
theorem map_notes_one_mapping_per_note (judge : MapJudge)
    (kr_notes : List DSDNote) (en_doc : EnDocument)
    (hkr : ∀ kr ∈ kr_notes, (normOk kr.note_number).isSome)
    (hen : ∀ n ∈ en_doc.notes, (normOk n.note_number).isSome)
    (hdist : kr_notes.Pairwise
      (fun a b => normOk a.note_number ≠ normOk b.note_number))
    (hj : ∀ krl enl,
      ((judge krl enl).Pairwise
        (fun a b => normOk a.kr_num ≠ normOk b.kr_num)) ∧
      ∀ e ∈ judge krl enl, (normOk e.kr_num).isSome ∧
        ∀ s, truthyEnNum e = some s → (normOk s).isSome) :
    ∃ ms, map_notes judge kr_notes en_doc = .ok ms ∧
      ms.map (fun m => m.kr_note) = kr_notes := by
  have hnum : kr_notes.Pairwise (fun a b => a.note_number ≠ b.note_number) := by
    refine hdist.imp ?_
    intro a b hab hc
    exact hab (by rw [hc])
  unfold map_notes
  by_cases hE : en_doc.notes.isEmpty
  · rw [if_pos hE]
    refine ⟨_, rfl, ?_⟩
    rw [List.map_map]
    exact List.map_id' kr_notes
  · rw [if_neg hE]
    obtain ⟨d, hd, hdv⟩ := buildDict_ok en_doc.notes hen []
    have hd' : buildEnDict en_doc.notes = .ok d := hd
    obtain ⟨krN, hkrN, hfst, hnorm⟩ := mapM_norm_ok kr_notes hkr
    rw [hd']
    simp only [except_bind_ok]
    rw [hkrN]
    simp only [except_bind_ok]
    obtain ⟨hs1, hs2⟩ := stage1_spec d krN
    unfold mapNotesAssemble
    by_cases hSE : (stage1 d krN).2.isEmpty
    · rw [if_pos hSE]
      have hnil : (stage1 d krN).2 = [] := by
        rwa [List.isEmpty_iff] at hSE
      refine ⟨_, rfl, ?_⟩
      apply map_notes_sorted_eq kr_notes _ hnum
      rw [List.map_append, hs1, List.map_nil]
      have hfilnil : krN.filter (fun p => !(dictLookup d p.2).isSome) = [] := by
        rw [← hs2]
        exact hnil
      have hall : ((krN.filter (fun p => (dictLookup d p.2).isSome)).map Prod.fst ++
          (krN.filter (fun p => !(dictLookup d p.2).isSome)).map Prod.fst).Perm
            kr_notes := by
        rw [← List.map_append, ← hfst]
        exact (List.filter_append_perm _ krN).map Prod.fst
      rw [hfilnil, List.map_nil] at hall
      exact hall
    · rw [if_neg hSE]
      have hu2 : ∀ kr ∈ (stage1 d krN).2.map Prod.fst,
          (normOk kr.note_number).isSome := by
        intro x hxm
        obtain ⟨p, hp, rfl⟩ := List.mem_map.mp hxm
        rw [hs2] at hp
        have hpk : p ∈ krN := List.mem_of_mem_filter hp
        have hpx : p.1 ∈ kr_notes := by
          rw [← hfst]
          exact List.mem_map_of_mem Prod.fst hpk
        exact hkr _ hpx
      have hkrN_pw : krN.Pairwise
          (fun a b => normOk a.1.note_number ≠ normOk b.1.note_number) := by
        have h0 : (krN.map Prod.fst).Pairwise
            (fun a b => normOk a.note_number ≠ normOk b.note_number) := by
          rw [hfst]
          exact hdist
        have h1 := List.pairwise_map.mp h0
        exact h1
      have hnodup2 : ((stage1 d krN).2.map Prod.fst).Pairwise
          (fun a b => normOk a.note_number ≠ normOk b.note_number) := by
        refine List.pairwise_map.mpr ?_
        rw [hs2]
        exact List.Pairwise.sublist (List.filter_sublist _) hkrN_pw
      have hen2 : ∀ n ∈ unmatchedEnNotes d (krN.map Prod.snd),
          (normOk n.note_number).isSome := by
        intro n hnm
        obtain ⟨kv, hkv, hkve⟩ := unmatchedEnNotes_mem d _ hnm
        have h0 := (hdv kv hkv).resolve_right (by simp)
        rw [← hkve]
        exact hen _ h0
      obtain ⟨res, hres, hperm⟩ := llm_map_ok judge _ _ hu2 hnodup2 hen2 hj
      rw [hres]
      simp only [except_bind_ok]
      refine ⟨_, rfl, ?_⟩
      apply map_notes_sorted_eq kr_notes _ hnum
      rw [List.map_append, hs1]
      refine List.Perm.trans (List.Perm.append_left _ hperm) ?_
      rw [hs2, ← List.map_append, ← hfst]
      exact (List.filter_append_perm _ krN).map Prod.fst

/-- A judge that answers every query with two entries repeating domestic
number `5`, as a malformed semantic-mapping reply would. -/
def cexDupJudge : MapJudge := fun _ _ => [⟨"5", none, none⟩, ⟨"5", none, none⟩]

/-- A single domestic note numbered `5`. -/
def cexDupKr : DSDNote :=
  { note_number := "5", note_title := "재고자산", items := [] }

/-- A foreign document whose one note is numbered `9`, so number matching
fails and the judge is consulted. -/
def cexDupEnDoc : EnDocument :=
  { filename := "en.docx", format := .word
    notes := [{ note_number := "9", note_title := "Inventories"
                raw_text := "", source_format := .word }]
    full_raw_text := "" }

set_option maxRecDepth 10000 in
/-- Counterexample to C2 as stated over all judge responses: a reply that
repeats one `kr_num` yields two `NoteMapping`s for the single domestic
note. -/
theorem map_notes_duplicate_counterexample :
    Except.map (fun ms => List.length ms)
      (map_notes cexDupJudge [cexDupKr] cexDupEnDoc) = .ok 2 := by
  decide

/-- A two-note domestic input for the C2 witness. -/
def wMapKr1 : DSDNote :=
  { note_number := "3", note_title := "현금및현금성자산", items := [] }

def wMapKr2 : DSDNote :=
  { note_number := "4", note_title := "매출채권", items := [] }

/-- A foreign document matching only the first witness note by number. -/
def wMapEnDoc : EnDocument :=
  { filename := "en.pdf", format := .pdf
    notes := [{ note_number := "3", note_title := "Cash"
                raw_text := "", source_format := .pdf }]
    full_raw_text := "" }

/-- A judge that maps nothing. -/
def wSilentMapJudge : MapJudge := fun _ _ => []

set_option maxRecDepth 10000 in
/-- Witness for C2 at a concrete two-note input with a silent judge. -/
theorem map_notes_one_mapping_per_note_witness :
    ∃ ms, map_notes wSilentMapJudge [wMapKr1, wMapKr2] wMapEnDoc = .ok ms ∧
      ms.map (fun m => m.kr_note) = [wMapKr1, wMapKr2] :=
  map_notes_one_mapping_per_note wSilentMapJudge [wMapKr1, wMapKr2] wMapEnDoc
    (by decide) (by decide) (by decide)
    (fun krl enl =>
      ⟨List.Pairwise.nil, fun e he => absurd he (List.not_mem_nil e)⟩)

end FsRecon
